import Mathlib

/-!
Verification development for the 2D rectangle-packing system.

This file gives a shallow embedding, in Lean 4, of the core of the
repository (problem/solution data model, geometry transforms, symmetry
canonicalization and deduplication, the mathematical / greedy / backtracking
solvers, the hybrid orchestrator, and the free-rectangle merge pass of
`packing.py`), together with theorems settling the specification claims.

Modelling conventions:
* Python `int` is `Int`; Python floor division `//` is `Int.fdiv` and `%` is
  `Int.fmod` (identical to `Int.ediv`/`Int.emod` for positive divisors).
* Python `range(a, b)` is `pyRange a b` (empty when `b ≤ a`, as in Python).
* Python's stable `sorted`/`list.sort` is `py_sorted lt`, a stable insertion
  sort; for a total preorder a stable sort's output is uniquely determined,
  so this agrees with CPython's timsort.
* Python sets used only for membership (`occupied`, `seen_canonical_forms`)
  are lists queried by membership.
* The backtracking occupancy grid (a Python list of lists mutated in place)
  is a total function `Int → Int → Nat` together with explicit bounds; the
  in-place place/undo pair of the source is translated functionally (the
  sibling branch reuses the pre-placement grid; the lemma
  `remove_place_tile` shows the source's undo restores exactly that grid).
* Wall-clock readings are inputs: the hybrid solver takes the elapsed-time
  values it would read at its two checkpoints as rational parameters, and
  the backtracking deadline is modelled as recursion-depth fuel whose
  exhaustion branch returns the accumulated solutions unchanged, exactly
  like the source's deadline branch; `backtrack_solve_all` passes fuel
  larger than any reachable depth for a validated problem, so there the
  deadline branch is never taken.
* `solve_time` fields (wall-clock durations) are modelled as 0.
-/

namespace Packing2D

/-- Python `range(a, b)` over integers: `[a, a+1, ..., b-1]`, empty when `b ≤ a`. -/
def pyRange (a b : Int) : List Int :=
  (List.range (b - a).toNat).map fun (i : Nat) => a + (i : Int)

/-- Stable insertion of `a` into `l`: `a` goes before the first strictly
greater element, hence after all elements equivalent to it. -/
def insertStable (lt : α → α → Bool) (a : α) : List α → List α
  | [] => [a]
  | b :: bs => if lt a b then a :: b :: bs else b :: insertStable lt a bs

/-- Python's stable `sorted(l)` with strict comparison `lt`. -/
def py_sorted (lt : α → α → Bool) (l : List α) : List α :=
  l.foldl (fun acc a => insertStable lt a acc) []

/-- Lexicographic comparison of character lists (Python string `<`). -/
def charListLt : List Char → List Char → Bool
  | [], [] => false
  | [], _ :: _ => true
  | _ :: _, [] => false
  | a :: as, b :: bs => if a < b then true else if b < a then false else charListLt as bs

/-- Python string `<` (lexicographic by code point). -/
def strLt (a b : String) : Bool := charListLt a.data b.data

/-! ## Data model (src/src/core/problem.py, src/src/core/solution.py)

`TilePosition` in the source is the tuple `(x, y, width, height, orientation)`
with orientation one of the strings `"original"` / `"rotated"`. -/

/-- A tile placement `(x, y, w, h, orientation)` (src/src/core/solution.py, `TilePosition`). -/
structure TilePos where
  x : Int
  y : Int
  w : Int
  h : Int
  orient : String
  deriving DecidableEq, Repr

/-- The fields of `PackingProblem` (src/src/core/problem.py). -/
structure PackingProblem where
  container_w : Int
  container_h : Int
  tile_w : Int
  tile_h : Int
  max_tiles : Option Int
  allow_rotation : Bool
  require_centering : Bool
  deriving DecidableEq, Repr

/-- `PackingProblem.__post_init__` validation (src/src/core/problem.py lines 20-27):
construction raises `ValueError` (modelled as `Except.error` with the source's
message) unless the container and tile dimensions are positive and the tile
fits the container in its ORIGINAL orientation. -/
def mkPackingProblem (cw ch tw th : Int) (mt : Option Int) (ar rc : Bool) :
    Except String PackingProblem :=
  if cw ≤ 0 ∨ ch ≤ 0 then .error "Container dimensions must be positive"
  else if tw ≤ 0 ∨ th ≤ 0 then .error "Tile dimensions must be positive"
  else if tw > cw ∨ th > ch then .error "Tile cannot fit in container"
  else .ok ⟨cw, ch, tw, th, mt, ar, rc⟩

/-- `PackingProblem.container_area`. -/
def PackingProblem.container_area (p : PackingProblem) : Int := p.container_w * p.container_h

/-- `PackingProblem.tile_area`. -/
def PackingProblem.tile_area (p : PackingProblem) : Int := p.tile_w * p.tile_h

/-- `PackingProblem.theoretical_max_tiles = container_area // tile_area`. -/
def PackingProblem.theoretical_max_tiles (p : PackingProblem) : Int :=
  Int.fdiv p.container_area p.tile_area

/-- Python's `problem.max_tiles or problem.theoretical_max_tiles` (`None` and
`0` are falsy, so both fall back to the theoretical maximum). -/
def PackingProblem.effective_max_tiles (p : PackingProblem) : Int :=
  match p.max_tiles with
  | some m => if m = 0 then p.theoretical_max_tiles else m
  | none => p.theoretical_max_tiles

/-- The invariant `PackingProblem.__post_init__` actually enforces: the set of
field values for which construction succeeds. -/
def ProblemValid (p : PackingProblem) : Prop :=
  0 < p.container_w ∧ 0 < p.container_h ∧ 0 < p.tile_w ∧ 0 < p.tile_h ∧
    p.tile_w ≤ p.container_w ∧ p.tile_h ≤ p.container_h

instance (p : PackingProblem) : Decidable (ProblemValid p) := by
  unfold ProblemValid; infer_instance

/-- `PackingSolution` (src/src/core/solution.py); `solve_time` is a wall-clock
duration, modelled as 0, and the `Dict[str, Any]` metadata is modelled as a
string association list. -/
structure PackingSolution where
  tile_positions : List TilePos
  container_w : Int
  container_h : Int
  solve_time : Rat
  solver_name : String
  metadata : List (String × String)
  deriving DecidableEq, Repr

/-- `PackingSolution.num_tiles`. -/
def PackingSolution.num_tiles (s : PackingSolution) : Int := s.tile_positions.length

/-- Total tile area `Σ w*h` of a solution (numerator of `efficiency`). -/
def PackingSolution.total_tile_area (s : PackingSolution) : Int :=
  (s.tile_positions.map fun t => t.w * t.h).foldl (· + ·) 0

/-- `PackingSolution.efficiency` as an exact rational percentage. -/
def PackingSolution.efficiency (s : PackingSolution) : Rat :=
  if s.num_tiles = 0 then 0
  else ((s.total_tile_area : Rat) / ((s.container_w * s.container_h : Int) : Rat)) * 100

/-! ## Validation predicates (src/src/utils/validation.py) -/

/-- `rectangles_overlap` (src/src/utils/validation.py lines 85-88): open-interval
overlap on both axes. -/
def rectangles_overlap (x1 y1 w1 h1 x2 y2 w2 h2 : Int) : Bool :=
  !(decide (x1 + w1 ≤ x2) || decide (x2 + w2 ≤ x1) ||
    decide (y1 + h1 ≤ y2) || decide (y2 + h2 ≤ y1))

/-- A placement lies inside the container (spec §8 bounds invariant). -/
def tileInBounds (cw ch : Int) (t : TilePos) : Prop :=
  0 ≤ t.x ∧ 0 ≤ t.y ∧ t.x + t.w ≤ cw ∧ t.y + t.h ≤ ch

instance (cw ch : Int) (t : TilePos) : Decidable (tileInBounds cw ch t) := by
  unfold tileInBounds; infer_instance

/-- The non-overlap-and-bounds property of claim C1 for a placement list. -/
def placements_ok (cw ch : Int) (ps : List TilePos) : Prop :=
  (∀ t ∈ ps, tileInBounds cw ch t) ∧
    ps.Pairwise fun a b => rectangles_overlap a.x a.y a.w a.h b.x b.y b.w b.h = false

/-! ## Geometry transforms (src/src/core/geometry.py) -/

/-- `rotate_point_90`. -/
def rotate_point_90 (x y _cw ch : Int) : Int × Int := (ch - 1 - y, x)

/-- `rotate_point_180`. -/
def rotate_point_180 (x y cw ch : Int) : Int × Int := (cw - 1 - x, ch - 1 - y)

/-- `rotate_point_270`. -/
def rotate_point_270 (x y cw _ch : Int) : Int × Int := (y, cw - 1 - x)

/-- `rotate_tile_90` (src/src/core/geometry.py lines 28-33). -/
def rotate_tile_90 (t : TilePos) (cw ch : Int) : TilePos :=
  let p := rotate_point_90 (t.x + t.w - 1) t.y cw ch
  ⟨p.1 - t.h + 1, p.2, t.h, t.w, t.orient⟩

/-- `rotate_tile_180`. -/
def rotate_tile_180 (t : TilePos) (cw ch : Int) : TilePos :=
  let p := rotate_point_180 (t.x + t.w - 1) (t.y + t.h - 1) cw ch
  ⟨p.1 - t.w + 1, p.2 - t.h + 1, t.w, t.h, t.orient⟩

/-- `rotate_tile_270`. -/
def rotate_tile_270 (t : TilePos) (cw ch : Int) : TilePos :=
  let p := rotate_point_270 t.x (t.y + t.h - 1) cw ch
  ⟨p.1, p.2 - t.w + 1, t.h, t.w, t.orient⟩

/-- `rotate_solution_90`. -/
def rotate_solution_90 (ps : List TilePos) (cw ch : Int) : List TilePos :=
  ps.map fun t => rotate_tile_90 t cw ch

/-- `rotate_solution_180`. -/
def rotate_solution_180 (ps : List TilePos) (cw ch : Int) : List TilePos :=
  ps.map fun t => rotate_tile_180 t cw ch

/-- `rotate_solution_270`. -/
def rotate_solution_270 (ps : List TilePos) (cw ch : Int) : List TilePos :=
  ps.map fun t => rotate_tile_270 t cw ch

/-- `mirror_solution_horizontal` (src/src/utils/symmetry.py lines 45-51). -/
def mirror_solution_horizontal (ps : List TilePos) (cw : Int) : List TilePos :=
  ps.map fun t => ⟨cw - t.x - t.w, t.y, t.w, t.h, t.orient⟩

/-- `mirror_solution_vertical` (src/src/utils/symmetry.py lines 53-59). -/
def mirror_solution_vertical (ps : List TilePos) (ch : Int) : List TilePos :=
  ps.map fun t => ⟨t.x, ch - t.y - t.h, t.w, t.h, t.orient⟩

/-- `translate_solution`. -/
def translate_solution (ps : List TilePos) (ox oy : Int) : List TilePos :=
  ps.map fun t => ⟨t.x + ox, t.y + oy, t.w, t.h, t.orient⟩

/-- Minimum of a list of integers with explicit head (Python `min` on a
non-empty generator). -/
def list_min : List Int → Int
  | [] => 0
  | a :: as => as.foldl min a

/-- Maximum of a list of integers with explicit head. -/
def list_max : List Int → Int
  | [] => 0
  | a :: as => as.foldl max a

/-- `center_solution` (src/src/core/geometry.py lines 67-84). -/
def center_solution (ps : List TilePos) (cw ch : Int) : List TilePos :=
  if ps = [] then ps
  else
    let min_x := list_min (ps.map fun t => t.x)
    let min_y := list_min (ps.map fun t => t.y)
    let max_x := list_max (ps.map fun t => t.x + t.w)
    let max_y := list_max (ps.map fun t => t.y + t.h)
    let used_w := max_x - min_x
    let used_h := max_y - min_y
    let offset_x := Int.fdiv (cw - used_w) 2 - min_x
    let offset_y := Int.fdiv (ch - used_h) 2 - min_y
    translate_solution ps offset_x offset_y

/-- `calculate_bounding_box` (src/src/core/geometry.py lines 86-96). -/
def calculate_bounding_box (ps : List TilePos) : Int × Int × Int × Int :=
  if ps = [] then (0, 0, 0, 0)
  else
    (list_min (ps.map fun t => t.x), list_min (ps.map fun t => t.y),
     list_max (ps.map fun t => t.x + t.w), list_max (ps.map fun t => t.y + t.h))

/-! ## Symmetry canonicalization (src/src/utils/symmetry.py) -/

/-- Python tuple `<` on `(x, y, w, h, orientation)`. -/
def tileLt (a b : TilePos) : Bool :=
  a.x < b.x || (a.x == b.x && (a.y < b.y || (a.y == b.y && (a.w < b.w ||
    (a.w == b.w && (a.h < b.h || (a.h == b.h && strLt a.orient b.orient)))))))

/-- Strict comparison of the sort key `(y, x, w, h)` used by
`sorted(transform, key=lambda t: (t[1], t[0], t[2], t[3]))`. -/
def sortKeyLt (a b : TilePos) : Bool :=
  a.y < b.y || (a.y == b.y && (a.x < b.x || (a.x == b.x && (a.w < b.w ||
    (a.w == b.w && a.h < b.h)))))

/-- Order-normalising sort by `(y, x, w, h)` used throughout symmetry.py. -/
def sort_positions (ps : List TilePos) : List TilePos := py_sorted sortKeyLt ps

/-- Python list `<` on lists of placement tuples. -/
def tileListLt : List TilePos → List TilePos → Bool
  | [], [] => false
  | [], _ :: _ => true
  | _ :: _, [] => false
  | a :: as, b :: bs => if a = b then tileListLt as bs else tileLt a b

/-- `get_canonical_form` (src/src/utils/symmetry.py lines 13-43): apply the 8
transforms (original, three rotations, and the horizontal mirror of each),
sort each by `(y, x, w, h)`, return the lexicographically smallest (Python
`min`, which keeps the first minimum). -/
def get_canonical_form (ps : List TilePos) (cw ch : Int) : List TilePos :=
  if ps = [] then []
  else
    let base := [ps, rotate_solution_90 ps cw ch, rotate_solution_180 ps cw ch,
      rotate_solution_270 ps cw ch]
    let transforms := base ++ base.map fun t => mirror_solution_horizontal t cw
    let forms := transforms.map sort_positions
    match forms with
    | [] => []
    | f :: fs => fs.foldl (fun acc c => if tileListLt c acc then c else acc) f

/-- `deduplicate_solutions` inner loop (src/src/utils/symmetry.py lines 74-96);
the `seen_canonical_forms` set is a list queried by membership. -/
def dedup_go (p : PackingProblem) :
    List PackingSolution → List (List TilePos) → List PackingSolution
  | [], _ => []
  | s :: rest, seen =>
    let c := get_canonical_form s.tile_positions p.container_w p.container_h
    if c ∈ seen then dedup_go p rest seen
    else s :: dedup_go p rest (c :: seen)

/-- `deduplicate_solutions` (src/src/utils/symmetry.py lines 74-96). -/
def deduplicate_solutions (sols : List PackingSolution) (p : PackingProblem) :
    List PackingSolution :=
  if sols = [] then sols else dedup_go p sols []

/-- `_positions_equivalent` (src/src/utils/symmetry.py lines 129-138): equality
after sorting both lists by `(y, x, w, h)`. -/
def positions_equivalent (p1 p2 : List TilePos) : Bool :=
  p1.length == p2.length && (sort_positions p1 == sort_positions p2)

/-- `detect_symmetry_type` (src/src/utils/symmetry.py lines 98-127): tests the
three rotations and the two axis mirrors by direct sorted equality, collecting
names in source order. -/
def detect_symmetry_type (ps : List TilePos) (cw ch : Int) : List String :=
  (if positions_equivalent ps (rotate_solution_90 ps cw ch) then ["rotational_90"] else []) ++
  (if positions_equivalent ps (rotate_solution_180 ps cw ch) then ["rotational_180"] else []) ++
  (if positions_equivalent ps (rotate_solution_270 ps cw ch) then ["rotational_270"] else []) ++
  (if positions_equivalent ps (mirror_solution_horizontal ps cw) then ["mirror_horizontal"] else []) ++
  (if positions_equivalent ps (mirror_solution_vertical ps ch) then ["mirror_vertical"] else [])

/-! ## Mathematical solver (src/src/solvers/mathematical_solver.py) -/

/-- A rectangular arrangement `(rows, cols, start_x, start_y, total_tiles)`. -/
structure Arrangement where
  rows : Int
  cols : Int
  start_x : Int
  start_y : Int
  total : Int
  deriving DecidableEq, Repr

/-- `MathematicalSolver._find_rectangular_arrangements` (lines 97-119): every
`rows × cols` grid of tiles that fits the container, centred, sorted by tile
count descending (Python stable `sort(key=..., reverse=True)`). -/
def find_rectangular_arrangements (p : PackingProblem) : List Arrangement :=
  let mt := p.effective_max_tiles
  let arrangements :=
    (pyRange 1 (mt + 1)).flatMap fun rows =>
      (pyRange 1 (Int.fdiv mt rows + 1)).flatMap fun cols =>
        if rows * cols ≤ mt then
          let total_w := cols * p.tile_w
          let total_h := rows * p.tile_h
          if total_w ≤ p.container_w ∧ total_h ≤ p.container_h then
            [⟨rows, cols, Int.fdiv (p.container_w - total_w) 2,
              Int.fdiv (p.container_h - total_h) 2, rows * cols⟩]
          else []
        else []
  py_sorted (fun a b => b.total < a.total) arrangements

/-- The tile positions generated from one arrangement (row-major double loop
shared by `MathematicalSolver.solve` and `solve_all_optimal`). -/
def arrangement_positions (p : PackingProblem) (a : Arrangement) : List TilePos :=
  (pyRange 0 a.rows).flatMap fun r =>
    (pyRange 0 a.cols).map fun c =>
      ⟨a.start_x + c * p.tile_w, a.start_y + r * p.tile_h, p.tile_w, p.tile_h, "original"⟩

/-- Python `max(arrangements, key=lambda x: x[4])`: the first element with
maximal key. -/
def pick_best_arrangement (a : Arrangement) (rest : List Arrangement) : Arrangement :=
  rest.foldl (fun acc c => if c.total > acc.total then c else acc) a

/-- `MathematicalSolver.solve`. -/
def mathematical_solve (p : PackingProblem) : PackingSolution :=
  match find_rectangular_arrangements p with
  | [] => ⟨[], p.container_w, p.container_h, 0, "Mathematical", []⟩
  | a :: rest =>
    let best := pick_best_arrangement a rest
    ⟨arrangement_positions p best, p.container_w, p.container_h, 0, "Mathematical",
      [("arrangement", "rectangular"),
       ("grid_size", toString best.rows ++ "x" ++ toString best.cols)]⟩

/-- `MathematicalSolver.solve_all_optimal`. -/
def mathematical_solve_all (p : PackingProblem) (max_solutions : Int) :
    List PackingSolution :=
  match find_rectangular_arrangements p with
  | [] => []
  | a :: rest =>
    let arrangements := a :: rest
    let mx := ((arrangements.map Arrangement.total).foldl max a.total)
    let optimal := arrangements.filter fun arr => arr.total = mx
    (optimal.take max_solutions.toNat).map fun arr =>
      ⟨arrangement_positions p arr, p.container_w, p.container_h, 0, "Mathematical",
        [("arrangement", "rectangular"),
         ("grid_size", toString arr.rows ++ "x" ++ toString arr.cols)]⟩

/-! ## Greedy solver (src/src/solvers/greedy_solver.py)

The `occupied` set of cells is modelled as a list queried by membership. -/

/-- `GreedySolver._can_place_at` (lines 111-118). -/
def can_place_at (x y w h : Int) (occ : List (Int × Int)) : Bool :=
  (pyRange x (x + w)).all fun cx =>
    (pyRange y (y + h)).all fun cy => !(decide ((cx, cy) ∈ occ))

/-- The cells covered by a tile at `(x, y)` of size `w × h` (the double
`occupied.add` loops). -/
def tile_cells (x y w h : Int) : List (Int × Int) :=
  (pyRange x (x + w)).flatMap fun fx => (pyRange y (y + h)).map fun fy => (fx, fy)

/-- `GreedySolver._find_best_bottom_left_position` (lines 101-109): first free
bottom-left anchor, scanning `y` then `x`. -/
def find_best_bottom_left_position (p : PackingProblem) (occ : List (Int × Int)) :
    Option (Int × Int) :=
  ((pyRange 0 (p.container_h - p.tile_h + 1)).flatMap fun y =>
      (pyRange 0 (p.container_w - p.tile_w + 1)).map fun x => (x, y)).find?
    fun q => can_place_at q.1 q.2 p.tile_w p.tile_h occ

/-- `GreedySolver._solve_bottom_left` loop (lines 42-66); the fuel is the
Python loop bound `range(max_tiles)`. -/
def greedy_bottom_left_go (p : PackingProblem) :
    Nat → List TilePos → List (Int × Int) → List TilePos
  | 0, placed, _ => placed
  | fuel + 1, placed, occ =>
    match find_best_bottom_left_position p occ with
    | none => placed
    | some (x, y) =>
      greedy_bottom_left_go p fuel
        (placed ++ [⟨x, y, p.tile_w, p.tile_h, "original"⟩])
        (occ ++ tile_cells x y p.tile_w p.tile_h)

/-- `GreedySolver._solve_bottom_left` (lines 42-66). -/
def greedy_solve_bottom_left (p : PackingProblem) : List TilePos :=
  greedy_bottom_left_go p p.effective_max_tiles.toNat [] []

/-- The candidate list of `_solve_center_out` (lines 68-99): `(distance, x, y)`
triples for every in-bounds anchor, before sorting. -/
def center_out_candidates (p : PackingProblem) : List (Int × Int × Int) :=
  let center_x := Int.fdiv p.container_w 2
  let center_y := Int.fdiv p.container_h 2
  (pyRange 0 p.container_w).flatMap fun x =>
    (pyRange 0 p.container_h).flatMap fun y =>
      if x + p.tile_w ≤ p.container_w ∧ y + p.tile_h ≤ p.container_h then
        let tile_center_x := x + Int.fdiv p.tile_w 2
        let tile_center_y := y + Int.fdiv p.tile_h 2
        [(|tile_center_x - center_x| + |tile_center_y - center_y|, x, y)]
      else []

/-- Python tuple `<` on `(distance, x, y)`. -/
def tripleLt (a b : Int × Int × Int) : Bool :=
  a.1 < b.1 || (a.1 == b.1 && (a.2.1 < b.2.1 || (a.2.1 == b.2.1 && a.2.2 < b.2.2)))

/-- Placement loop of `_solve_center_out` over the distance-sorted candidates. -/
def greedy_center_out_go (p : PackingProblem) :
    List (Int × Int × Int) → List TilePos → List (Int × Int) → List TilePos
  | [], placed, _ => placed
  | (_, x, y) :: rest, placed, occ =>
    if (placed.length : Int) ≥ p.effective_max_tiles then placed
    else if can_place_at x y p.tile_w p.tile_h occ then
      greedy_center_out_go p rest (placed ++ [⟨x, y, p.tile_w, p.tile_h, "original"⟩])
        (occ ++ tile_cells x y p.tile_w p.tile_h)
    else greedy_center_out_go p rest placed occ

/-- `GreedySolver._solve_center_out` (lines 68-99). -/
def greedy_solve_center_out (p : PackingProblem) : List TilePos :=
  greedy_center_out_go p (py_sorted tripleLt (center_out_candidates p)) [] []

/-- `GreedySolver.solve` with the `center_out` strategy (the configuration the
hybrid solver uses). -/
def greedy_center_out_solution (p : PackingProblem) : PackingSolution :=
  ⟨greedy_solve_center_out p, p.container_w, p.container_h, 0, "Greedy_center_out",
    [("strategy", "center_out")]⟩

/-- `GreedySolver.solve` with the default `bottom_left` strategy. -/
def greedy_bottom_left_solution (p : PackingProblem) : PackingSolution :=
  ⟨greedy_solve_bottom_left p, p.container_w, p.container_h, 0, "Greedy_bottom_left",
    [("strategy", "bottom_left")]⟩

/-! ## Backtracking solver (src/src/solvers/backtrack_solver.py)

The `height × width` grid of cell labels is a total function
`Int → Int → Nat` (0 = empty) read only at in-range indices. -/

/-- Occupancy grid: row, column ↦ 0 (empty) or the 1-based tile id. -/
def Grid : Type := Int → Int → Nat

/-- The all-empty starting grid. -/
def empty_grid : Grid := fun _ _ => 0

/-- Row-major cell order `(r, c)` over a `H × W` grid. -/
def row_major_cells (H W : Int) : List (Int × Int) :=
  (pyRange 0 H).flatMap fun r => (pyRange 0 W).map fun c => (r, c)

/-- `BacktrackSolver._find_first_empty` (lines 115-121). -/
def find_first_empty (g : Grid) (H W : Int) : Option (Int × Int) :=
  (row_major_cells H W).find? fun rc => g rc.1 rc.2 == 0

/-- `BacktrackSolver._can_place` (lines 123-134): bounds check then
all-cells-empty check over the `h × w` footprint anchored at `(r, c)`. -/
def can_place (g : Grid) (H W r c h w : Int) : Bool :=
  decide (r + h ≤ H) && decide (c + w ≤ W) &&
    ((pyRange r (r + h)).all fun i => (pyRange c (c + w)).all fun j => g i j == 0)

/-- `BacktrackSolver._place_tile` (lines 136-140). -/
def place_tile (g : Grid) (r c h w : Int) (tile_id : Nat) : Grid :=
  fun i j => if r ≤ i ∧ i < r + h ∧ c ≤ j ∧ j < c + w then tile_id else g i j

/-- `BacktrackSolver._remove_tile` (lines 142-146). -/
def remove_tile (g : Grid) (r c h w : Int) : Grid :=
  fun i j => if r ≤ i ∧ i < r + h ∧ c ≤ j ∧ j < c + w then 0 else g i j

/-- Length of the `while` run in `_extract_solution`: the number of
consecutive indices `i, i+1, ...` below `stop` satisfying `pred`. -/
def run_len (pred : Int → Bool) (i stop : Int) : Nat :=
  if _h : i < stop ∧ pred i then 1 + run_len pred (i + 1) stop else 0
termination_by (stop - i).toNat
decreasing_by omega

/-- One reconstructed tile of `_extract_solution` (lines 148-173): widths and
heights grown by the two `while` loops from the cell `(r, c)` carrying label
`n`, orientation classified against the problem's tile dimensions. -/
def tile_at (g : Grid) (p : PackingProblem) (r c : Int) (n : Nat) : TilePos :=
  let w : Int := 1 + (run_len (fun j => g r j == n) (c + 1) p.container_w : Int)
  let h : Int := 1 + (run_len (fun i => g i c == n) (r + 1) p.container_h : Int)
  let orient := if w = p.tile_h ∧ h = p.tile_w then "rotated" else "original"
  ⟨c, r, w, h, orient⟩

/-- One step of the row-major scan of `_extract_solution`: record a tile the
first time its label is seen. -/
def extract_step (g : Grid) (p : PackingProblem) (acc : List (Nat × TilePos))
    (rc : Int × Int) : List (Nat × TilePos) :=
  let n := g rc.1 rc.2
  if n ≠ 0 ∧ ∀ e ∈ acc, e.1 ≠ n then acc ++ [(n, tile_at g p rc.1 rc.2 n)]
  else acc

/-- The `tiles` dictionary built by `_extract_solution`'s row-major scan. -/
def extract_entries (g : Grid) (p : PackingProblem) : List (Nat × TilePos) :=
  (row_major_cells p.container_h p.container_w).foldl (extract_step g p) []

/-- `BacktrackSolver._extract_solution` (lines 148-173): the recorded tiles
sorted by tile id. -/
def extract_solution (g : Grid) (p : PackingProblem) : List TilePos :=
  (py_sorted (fun a b => Nat.blt a.1 b.1) (extract_entries g p)).map Prod.snd

/-- `BacktrackSolver._backtrack_solve` (lines 86-113). The structure mirrors
the source: cap check, first-empty scan, the two record cases, then the
original-orientation branch followed by the rotated branch; the sibling
branch resumes from the pre-placement grid, which is what the source's
`_remove_tile` undo restores (lemma `remove_place_tile`). The `fuel`
argument models the wall-clock deadline: its exhaustion branch returns the
accumulated solutions unchanged, like the source's deadline check. -/
def backtrack_aux (p : PackingProblem) (max_solutions : Int) :
    Nat → Grid → Int → Nat → List (List TilePos) → List (List TilePos)
  | 0, _, _, _, sols => sols
  | fuel + 1, g, tiles_left, tile_id, sols =>
    if (sols.length : Int) ≥ max_solutions then sols
    else
      match find_first_empty g p.container_h p.container_w with
      | none => sols ++ [extract_solution g p]
      | some (r, c) =>
        if tiles_left = 0 then sols ++ [extract_solution g p]
        else
          let s1 :=
            if can_place g p.container_h p.container_w r c p.tile_h p.tile_w then
              backtrack_aux p max_solutions fuel
                (place_tile g r c p.tile_h p.tile_w tile_id)
                (tiles_left - 1) (tile_id + 1) sols
            else sols
          if p.allow_rotation ∧ p.tile_w ≠ p.tile_h ∧
              can_place g p.container_h p.container_w r c p.tile_w p.tile_h then
            backtrack_aux p max_solutions fuel
              (place_tile g r c p.tile_w p.tile_h tile_id)
              (tiles_left - 1) (tile_id + 1) s1
          else s1

/-- The raw `solutions_list` accumulated by `BacktrackSolver.solve_all_optimal`
before filtering. The fuel bound `container_w * container_h + 1` exceeds the
recursion depth reachable for any validated problem (every recursive call
fills at least one empty cell), so the deadline branch is never taken. -/
def backtrack_solutions_list (p : PackingProblem) (max_solutions : Int) :
    List (List TilePos) :=
  backtrack_aux p max_solutions ((p.container_w * p.container_h).toNat + 1)
    empty_grid p.effective_max_tiles 1 []

/-- `BacktrackSolver.solve_all_optimal` (lines 32-84): keep the solutions of
maximal tile count, truncate to `max_solutions`, wrap as `PackingSolution`s. -/
def backtrack_solve_all (p : PackingProblem) (max_solutions : Int) :
    List PackingSolution :=
  let sols := backtrack_solutions_list p max_solutions
  if sols = [] then []
  else
    let mx := (sols.map List.length).foldl max 0
    let optimal := sols.filter fun s => s.length = mx
    (optimal.take max_solutions.toNat).map fun positions =>
      ⟨positions, p.container_w, p.container_h, 0, "Backtrack",
        [("method", "backtrack"), ("total_found", toString optimal.length)]⟩

/-- `BacktrackSolver.solve` (lines 21-30). -/
def backtrack_solve (p : PackingProblem) : PackingSolution :=
  match backtrack_solve_all p 1 with
  | s :: _ => s
  | [] => ⟨[], p.container_w, p.container_h, 0, "Backtrack", []⟩

/-! ## Hybrid orchestrator (src/src/solvers/hybrid_solver.py)

`HybridSolver.solve` reads the wall clock at two checkpoints (before tier 3
and before tier 4); those two elapsed readings are parameters `elapsedA` and
`elapsedB`. The optional ILP collaborator result is a parameter: `none`
models `ORTOOLS_AVAILABLE == False` (so `self.ilp_solver is None`). -/

/-- Provenance wrapping `f"Hybrid( name )"` applied on the non-time-limited
exits of `HybridSolver.solve`. -/
def hybrid_wrap (s : PackingSolution) : PackingSolution :=
  { s with solver_name := "Hybrid(" ++ s.solver_name ++ ")" }

/-- The initial `best_solution` of `HybridSolver.solve` (lines 48-54): an
empty solution carrying the solver's own name `"Hybrid"`. -/
def hybrid_best0 (p : PackingProblem) : PackingSolution :=
  ⟨[], p.container_w, p.container_h, 0, "Hybrid", []⟩

/-- Best solution after tier 1 (lines 56-61): the mathematical result if it
placed any tile, else the initial empty best. -/
def hybrid_best1 (p : PackingProblem) : PackingSolution :=
  if (mathematical_solve p).num_tiles > 0 then mathematical_solve p else hybrid_best0 p

/-- Tier-1 early-return condition (lines 56-71): the mathematical solver
placed a tile and reached the theoretical maximum or ≥95% efficiency. -/
def hybrid_tier1_early (p : PackingProblem) : Prop :=
  (mathematical_solve p).num_tiles > 0 ∧
    ((mathematical_solve p).num_tiles ≥ p.theoretical_max_tiles ∨
      (mathematical_solve p).efficiency ≥ 95)

instance (p : PackingProblem) : Decidable (hybrid_tier1_early p) := by
  unfold hybrid_tier1_early; infer_instance

/-- Best solution after tier 2 (lines 73-78): greedy replaces the best only
on strict tile-count improvement. -/
def hybrid_best2 (p : PackingProblem) : PackingSolution :=
  if (greedy_center_out_solution p).num_tiles > (hybrid_best1 p).num_tiles then
    greedy_center_out_solution p
  else hybrid_best1 p

/-- Best solution after tier 3 (lines 100-105). -/
def hybrid_best3 (p : PackingProblem) : PackingSolution :=
  if (backtrack_solve p).num_tiles > (hybrid_best2 p).num_tiles then backtrack_solve p
  else hybrid_best2 p

/-- `HybridSolver.solve` (lines 41-143), written as the chain of its return
points: tier-1 early return (wrapped), optimal-after-greedy return (wrapped),
the 70% time check (returns `best_solution` UNWRAPPED, lines 88-93), the
optimal-after-backtracking return (wrapped), the 80%-or-no-ILP check (returns
UNWRAPPED, lines 116-121), and the final tier-4 return (wrapped). -/
def hybrid_solve (p : PackingProblem) (time_limit elapsedA elapsedB : Rat)
    (ilpResult : Option PackingSolution) : PackingSolution :=
  if hybrid_tier1_early p then hybrid_wrap (hybrid_best1 p)
  else if (hybrid_best2 p).num_tiles ≥ p.theoretical_max_tiles then
    hybrid_wrap (hybrid_best2 p)
  else if elapsedA > time_limit * 0.7 then hybrid_best2 p
  else if (backtrack_solve p).num_tiles > (hybrid_best2 p).num_tiles ∧
      (hybrid_best3 p).num_tiles ≥ p.theoretical_max_tiles then
    hybrid_wrap (hybrid_best3 p)
  else if elapsedB > time_limit * 0.8 ∨ ilpResult = none then hybrid_best3 p
  else
    match ilpResult with
    | none => hybrid_best3 p
    | some ilp_solution =>
      hybrid_wrap
        (if ilp_solution.num_tiles > (hybrid_best3 p).num_tiles then ilp_solution
         else hybrid_best3 p)

/-! ## Free-rectangle merge pass (src/packing.py lines 71-118) -/

/-- A free rectangle `(x, y, width, height)`. -/
structure FreeRect where
  x : Int
  y : Int
  w : Int
  h : Int
  deriving DecidableEq, Repr

/-- The source's horizontal-merge test: same `y` and height and sharing a
vertical edge. -/
def h_mergeable (r1 r2 : FreeRect) : Bool :=
  decide (r1.y = r2.y) && decide (r1.h = r2.h) &&
    (decide (r1.x + r1.w = r2.x) || decide (r2.x + r2.w = r1.x))

/-- The source's vertical-merge test: same `x` and width and sharing a
horizontal edge. -/
def v_mergeable (r1 r2 : FreeRect) : Bool :=
  decide (r1.x = r2.x) && decide (r1.w = r2.w) &&
    (decide (r1.y + r1.h = r2.y) || decide (r2.y + r2.h = r1.y))

/-- The merged rectangle produced by `_merge_rectangles` for a mergeable pair
(horizontal case first, mirroring the source's `if`/`elif`). -/
def merge_pair (r1 r2 : FreeRect) : FreeRect :=
  if h_mergeable r1 r2 then ⟨min r1.x r2.x, r1.y, r1.w + r2.w, r1.h⟩
  else ⟨r1.x, min r1.y r2.y, r1.w, r1.h + r2.h⟩

/-- Whether a pair can merge at all (the source tries horizontal then
vertical). -/
def mergeable (r1 r2 : FreeRect) : Bool := h_mergeable r1 r2 || v_mergeable r1 r2

/-- Scan for the first merge partner of `r1` in the remaining list, returning
the merged rectangle and the list with the partner removed (the source's
inner `for j` loop plus the `used` bookkeeping). -/
def find_merge_partner (r1 : FreeRect) :
    List FreeRect → Option (FreeRect × List FreeRect)
  | [] => none
  | r2 :: rest =>
    if mergeable r1 r2 then some (merge_pair r1 r2, rest)
    else
      match find_merge_partner r1 rest with
      | some (m, rest2) => some (m, r2 :: rest2)
      | none => none

/-- Removing the found merge partner shortens the list by one. -/
theorem find_merge_partner_length {r1 : FreeRect} :
    ∀ {l : List FreeRect} {m : FreeRect} {rest2 : List FreeRect},
      find_merge_partner r1 l = some (m, rest2) → rest2.length + 1 = l.length := by
  intro l
  induction l with
  | nil => intro m rest2 h; simp [find_merge_partner] at h
  | cons a as ih =>
    intro m rest2 h
    rw [find_merge_partner] at h
    by_cases hm : mergeable r1 a
    · rw [if_pos hm] at h
      cases h
      simp
    · rw [if_neg hm] at h
      cases hfe : find_merge_partner r1 as with
      | none => rw [hfe] at h; cases h
      | some q2 =>
        rw [hfe] at h
        cases h
        have := ih (show find_merge_partner r1 as = some (q2.1, q2.2) by rw [hfe])
        simp only [List.length_cons]
        omega

/-- One full pass of `_merge_rectangles`' outer `for i` loop: returns the new
rectangle list and whether any merge happened in the pass. -/
def merge_one_pass : List FreeRect → List FreeRect × Bool
  | [] => ([], false)
  | r :: rest =>
    match hfind : find_merge_partner r rest with
    | some (m, rest2) =>
      have : rest2.length < rest.length + 1 := by
        have := find_merge_partner_length hfind
        omega
      let q := merge_one_pass rest2
      (m :: q.1, true)
    | none =>
      let q := merge_one_pass rest
      (r :: q.1, q.2)
termination_by rs => rs.length
decreasing_by
  · simpa [List.length_cons] using this
  · simp [List.length_cons]

/-- Unfolding equation of `merge_one_pass` when a merge partner exists. -/
theorem merge_one_pass_cons_some {r m : FreeRect} {rest rest2 : List FreeRect}
    (hfind : find_merge_partner r rest = some (m, rest2)) :
    merge_one_pass (r :: rest) = (m :: (merge_one_pass rest2).1, true) := by
  rw [merge_one_pass]
  split
  · rename_i m2 rest3 heq
    rw [hfind] at heq
    injection heq with heq2
    injection heq2 with h1 h2
    subst h1
    subst h2
    rfl
  · rename_i heq
    rw [hfind] at heq
    cases heq

/-- Unfolding equation of `merge_one_pass` when no merge partner exists. -/
theorem merge_one_pass_cons_none {r : FreeRect} {rest : List FreeRect}
    (hfind : find_merge_partner r rest = none) :
    merge_one_pass (r :: rest) = (r :: (merge_one_pass rest).1, (merge_one_pass rest).2) := by
  rw [merge_one_pass]
  split
  · rename_i m2 rest3 heq
    rw [hfind] at heq
    cases heq
  · rfl

/-- Each pass that merges strictly shrinks the list (needed for the
`while merged` loop's termination). -/
theorem merge_one_pass_length (rs : List FreeRect) :
    (merge_one_pass rs).1.length ≤ rs.length ∧
      ((merge_one_pass rs).2 = true → (merge_one_pass rs).1.length < rs.length) := by
  induction rs using merge_one_pass.induct with
  | case1 => simp [merge_one_pass]
  | case2 r rest m rest2 hfind hlt ih =>
    have hlen : rest2.length + 1 = rest.length := find_merge_partner_length hfind
    rw [merge_one_pass_cons_some hfind]
    refine ⟨?_, fun _ => ?_⟩ <;>
      · simp only [List.length_cons]
        omega
  | case3 r rest hfind ih =>
    rw [merge_one_pass_cons_none hfind]
    refine ⟨?_, fun hb => ?_⟩
    · simp only [List.length_cons]; omega
    · simp only [List.length_cons]
      have := ih.2 hb
      omega

/-- The `while merged` loop of `_merge_rectangles` (lines 74-118): repeat the
pass until one makes no merge. -/
def merge_rectangles (rs : List FreeRect) : List FreeRect :=
  let q := merge_one_pass rs
  if h : q.2 = true then
    have : q.1.length < rs.length := (merge_one_pass_length rs).2 h
    merge_rectangles q.1
  else q.1
termination_by rs.length

/-! ## Basic lemmas about the Python-modelling helpers -/

theorem mem_pyRange {x a b : Int} : x ∈ pyRange a b ↔ a ≤ x ∧ x < b := by
  unfold pyRange
  constructor
  · intro hx
    obtain ⟨i, hi, hfx⟩ := List.mem_map.mp hx
    rw [List.mem_range] at hi
    omega
  · intro h
    exact List.mem_map.mpr ⟨(x - a).toNat, List.mem_range.mpr (by omega), by omega⟩

theorem pyRange_pairwise_lt (a b : Int) : (pyRange a b).Pairwise (· < ·) := by
  unfold pyRange
  rw [List.pairwise_map]
  refine (List.pairwise_lt_range _).imp ?_
  intro i j hij
  show a + (i : Int) < a + (j : Int)
  omega

theorem insertStable_perm (lt : α → α → Bool) (a : α) (l : List α) :
    (insertStable lt a l).Perm (a :: l) := by
  induction l with
  | nil => simp [insertStable]
  | cons b bs ih =>
    rw [insertStable]
    by_cases h : lt a b
    · rw [if_pos h]
    · rw [if_neg h]
      exact (ih.cons b).trans (List.Perm.swap a b bs)

theorem py_sorted_perm (lt : α → α → Bool) (l : List α) : (py_sorted lt l).Perm l := by
  suffices h : ∀ (acc : List α), (l.foldl (fun acc a => insertStable lt a acc) acc).Perm (l ++ acc) by
    simpa using h []
  induction l with
  | nil => simp
  | cons a as ih =>
    intro acc
    simp only [List.foldl_cons, List.cons_append]
    refine (ih _).trans ?_
    refine (List.Perm.append_left as (insertStable_perm lt a acc)).trans ?_
    exact List.perm_middle

theorem mem_py_sorted {lt : α → α → Bool} {l : List α} {x : α} :
    x ∈ py_sorted lt l ↔ x ∈ l :=
  (py_sorted_perm lt l).mem_iff

/-! ## Claim C2 — Problem construction predicate -/

/-- Claim C2, counterexample: container `5×10`, tile `10×5`, rotation allowed.
All four dimensions are positive and the tile fits in the rotated orientation
(`tile_h = 5 ≤ container_w = 5` and `tile_w = 10 ≤ container_h = 10`), so the
claim says construction succeeds; but `__post_init__` checks only the
original orientation and raises `ValueError("Tile cannot fit in container")`. -/
theorem claim_C2_counterexample :
    mkPackingProblem 5 10 10 5 none true true =
        Except.error "Tile cannot fit in container" ∧
      ((0 : Int) < 5 ∧ (0 : Int) < 10 ∧ (5 : Int) ≤ 5 ∧ (10 : Int) ≤ 10) :=
  ⟨rfl, by decide⟩

/-- Claim C2 as amended: constructing a `PackingProblem` succeeds exactly when
all four dimensions are positive and the tile fits the container in its
ORIGINAL orientation (`tile_w ≤ container_w` and `tile_h ≤ container_h`);
rotation is never considered, so rotated-only-fit inputs fail with
`InvalidDimensions` like every other invalid input. -/
theorem claim_C2_amended (cw ch tw th : Int) (mt : Option Int) (ar rc : Bool) :
    (∃ p, mkPackingProblem cw ch tw th mt ar rc = Except.ok p) ↔
      (0 < cw ∧ 0 < ch ∧ 0 < tw ∧ 0 < th ∧ tw ≤ cw ∧ th ≤ ch) := by
  unfold mkPackingProblem
  split_ifs with h1 h2 h3
  · simp only [reduceCtorEq, exists_false, false_iff]
    omega
  · simp only [reduceCtorEq, exists_false, false_iff]
    omega
  · simp only [reduceCtorEq, exists_false, false_iff]
    omega
  · simp only [Except.ok.injEq, exists_eq', true_iff]
    omega

/-! ## Claim C3 — container 5×5, tile 10×10 -/

/-- Claim C3: the claim (and the repo's own test
`test_validation.py::test_infeasible_problem`, as well as spec Scenario C)
expects `PackingProblem(5, 5, 10, 10)` to be constructible with solvers
returning an empty 0-tile solution; instead construction itself raises
`ValueError("Tile cannot fit in container")`, so no solver ever runs. -/
theorem claim_C3_construction_error :
    mkPackingProblem 5 5 10 10 none true true =
      Except.error "Tile cannot fit in container" := rfl

/-! ## Claim C4 — canonical form is not invariant under the code's transforms -/

/-- Claim C4: canonical-form invariance under the 8 dihedral transforms fails.
At the repo's own test input (`test_symmetry.py::test_rotated_solutions_same_canonical`,
positions `[(0,0,5,3),(5,0,5,3)]` in a 20×20 container) the canonical form of
the 90°-rotated arrangement is `[(-2,2,3,5),(-2,7,3,5)]` while the canonical
form of the original is `[(0,0,5,3),(5,0,5,3)]`: `rotate_tile_90` omits the
`- w + 1` adjustment on the rotated y-coordinate (and `rotate_tile_180`
over-subtracts), so the eight transforms do not form the dihedral group and
the repository's own test fails. -/
theorem claim_C4_canonical_not_invariant :
    get_canonical_form
        (rotate_solution_90
          [⟨0, 0, 5, 3, "original"⟩, ⟨5, 0, 5, 3, "original"⟩] 20 20) 20 20 =
        [⟨-2, 2, 3, 5, "original"⟩, ⟨-2, 7, 3, 5, "original"⟩] ∧
      get_canonical_form
          [⟨0, 0, 5, 3, "original"⟩, ⟨5, 0, 5, 3, "original"⟩] 20 20 =
        [⟨0, 0, 5, 3, "original"⟩, ⟨5, 0, 5, 3, "original"⟩] ∧
      get_canonical_form
          (rotate_solution_90
            [⟨0, 0, 5, 3, "original"⟩, ⟨5, 0, 5, 3, "original"⟩] 20 20) 20 20 ≠
        get_canonical_form
          [⟨0, 0, 5, 3, "original"⟩, ⟨5, 0, 5, 3, "original"⟩] 20 20 := by
  refine ⟨by decide, by decide, by decide⟩

/-! ## Claim C5 — backtracking records nothing at a dead end -/

/-- Claim C5: for the valid problem with container 15×15 and tile 10×10 (in
which one 10×10 tile can be placed: `_can_place` accepts the empty grid at
`(0,0)`), `BacktrackSolver.solve_all_optimal` returns the empty list and
`BacktrackSolver.solve` returns a zero-tile solution: after placing the first
tile the next empty cell `(0,10)` admits neither orientation and the budget
(theoretical maximum 2) is not yet zero, so the recursion backtracks without
recording the partial packing. -/
theorem claim_C5_backtrack_dead_end :
    backtrack_solve_all ⟨15, 15, 10, 10, none, true, true⟩ 50 = [] ∧
      (backtrack_solve ⟨15, 15, 10, 10, none, true, true⟩).tile_positions = [] ∧
      can_place empty_grid 15 15 0 0 10 10 = true := by
  refine ⟨by decide, by decide, by decide⟩

/-! ## Claim C7 — which transforms detect_symmetry_type tests -/

/-- Claim C7, counterexample: the single tile `(1,1,1,1)` in a 4×4 container
is self-symmetric under the dihedral transform "horizontal mirror of the 90°
rotation" (and trivially under the identity), yet `detect_symmetry_type`
returns `[]`: it tests only the three rotations and the two axis mirrors,
not all 8 dihedral transforms. -/
theorem claim_C7_counterexample :
    positions_equivalent
        [⟨1, 1, 1, 1, "original"⟩]
        (mirror_solution_horizontal
          (rotate_solution_90 [⟨1, 1, 1, 1, "original"⟩] 4 4) 4) = true ∧
      detect_symmetry_type [⟨1, 1, 1, 1, "original"⟩] 4 4 = [] := by
  refine ⟨by decide, by decide⟩

/-- The five transform/name pairs `detect_symmetry_type` actually tests,
written as the spec's words describe the reporting: filter the tested
transforms by sorted-equality self-symmetry and report their names. -/
def detect_symmetry_spec (ps : List TilePos) (cw ch : Int) : List String :=
  ([("rotational_90", rotate_solution_90 ps cw ch),
    ("rotational_180", rotate_solution_180 ps cw ch),
    ("rotational_270", rotate_solution_270 ps cw ch),
    ("mirror_horizontal", mirror_solution_horizontal ps cw),
    ("mirror_vertical", mirror_solution_vertical ps ch)].filter
      fun q => positions_equivalent ps q.2).map Prod.fst

/-- Claim C7 as amended: `detect_symmetry_type` tests five transforms — the
rotations by 90°/180°/270° and the horizontal and vertical mirrors (not the
identity and not the mirrored rotations) — each by direct equality of the
`(y, x, w, h)`-sorted lists, and reports exactly those of these five under
which the specific arrangement is self-symmetric, in source order. -/
theorem claim_C7_amended (ps : List TilePos) (cw ch : Int) :
    detect_symmetry_type ps cw ch = detect_symmetry_spec ps cw ch := by
  unfold detect_symmetry_type detect_symmetry_spec
  by_cases h1 : positions_equivalent ps (rotate_solution_90 ps cw ch) <;>
    by_cases h2 : positions_equivalent ps (rotate_solution_180 ps cw ch) <;>
      by_cases h3 : positions_equivalent ps (rotate_solution_270 ps cw ch) <;>
        by_cases h4 : positions_equivalent ps (mirror_solution_horizontal ps cw) <;>
          by_cases h5 : positions_equivalent ps (mirror_solution_vertical ps ch) <;>
            simp [h1, h2, h3, h4, h5]

/-! ## Claim C9 — deduplication is idempotent -/

theorem dedup_go_not_seen (p : PackingProblem) :
    ∀ (l : List PackingSolution) (seen : List (List TilePos)),
      ∀ s ∈ dedup_go p l seen,
        get_canonical_form s.tile_positions p.container_w p.container_h ∉ seen := by
  intro l
  induction l with
  | nil => intro seen s hs; simp [dedup_go] at hs
  | cons a rest ih =>
    intro seen s hs
    rw [dedup_go] at hs
    by_cases hmem : get_canonical_form a.tile_positions p.container_w p.container_h ∈ seen
    · rw [if_pos hmem] at hs
      exact ih seen s hs
    · rw [if_neg hmem] at hs
      rcases List.mem_cons.mp hs with h | h
      · subst h
        exact hmem
      · have hno := ih _ s h
        intro hcon
        exact hno (List.mem_cons_of_mem _ hcon)

theorem dedup_go_pairwise (p : PackingProblem) :
    ∀ (l : List PackingSolution) (seen : List (List TilePos)),
      (dedup_go p l seen).Pairwise fun a b =>
        get_canonical_form a.tile_positions p.container_w p.container_h ≠
          get_canonical_form b.tile_positions p.container_w p.container_h := by
  intro l
  induction l with
  | nil => intro seen; simp [dedup_go]
  | cons a rest ih =>
    intro seen
    rw [dedup_go]
    by_cases hmem : get_canonical_form a.tile_positions p.container_w p.container_h ∈ seen
    · rw [if_pos hmem]
      exact ih seen
    · rw [if_neg hmem]
      refine List.Pairwise.cons ?_ (ih _)
      intro b hb heq
      have hno := dedup_go_not_seen p rest _ b hb
      exact hno (heq ▸ List.mem_cons_self _ _)

theorem dedup_go_of_fresh (p : PackingProblem) :
    ∀ (l : List PackingSolution) (seen : List (List TilePos)),
      (l.Pairwise fun a b =>
        get_canonical_form a.tile_positions p.container_w p.container_h ≠
          get_canonical_form b.tile_positions p.container_w p.container_h) →
      (∀ s ∈ l, get_canonical_form s.tile_positions p.container_w p.container_h ∉ seen) →
      dedup_go p l seen = l := by
  intro l
  induction l with
  | nil => intro seen _ _; rfl
  | cons a rest ih =>
    intro seen hpw hfresh
    rw [dedup_go, if_neg (hfresh a (List.mem_cons_self _ _))]
    congr 1
    refine ih _ hpw.of_cons ?_
    intro s hs hcon
    rcases List.mem_cons.mp hcon with h | h
    · exact (List.rel_of_pairwise_cons hpw hs) h.symm
    · exact hfresh s (List.mem_cons_of_mem _ hs) h

/-- Claim C9: `deduplicate_solutions` is idempotent — it keeps exactly the
first solution of each canonical-form class in input order, so the kept list
has pairwise distinct canonical forms and a second application keeps
everything. -/
theorem claim_C9_dedup_idempotent (S : List PackingSolution) (p : PackingProblem) :
    deduplicate_solutions (deduplicate_solutions S p) p = deduplicate_solutions S p := by
  by_cases hS : S = []
  · subst hS
    simp [deduplicate_solutions]
  · have hinner : deduplicate_solutions S p = dedup_go p S [] := by
      rw [deduplicate_solutions, if_neg hS]
    rw [hinner, deduplicate_solutions]
    by_cases h2 : dedup_go p S [] = []
    · rw [if_pos h2]
    · rw [if_neg h2]
      exact dedup_go_of_fresh p _ [] (dedup_go_pairwise p S []) (by simp)

/-! ## Claim C10 — the merge pass terminates and reaches a fixed point -/

theorem find_merge_partner_none {r1 : FreeRect} :
    ∀ {l : List FreeRect}, find_merge_partner r1 l = none →
      ∀ b ∈ l, mergeable r1 b = false := by
  intro l
  induction l with
  | nil => intro _ b hb; cases hb
  | cons a as ih =>
    intro h b hb
    rw [find_merge_partner] at h
    by_cases hm : mergeable r1 a
    · rw [if_pos hm] at h
      cases h
    · rw [if_neg hm] at h
      rcases List.mem_cons.mp hb with rfl | hmem
      · exact Bool.eq_false_iff.mpr hm
      · cases hfe : find_merge_partner r1 as with
        | none => exact ih hfe b hmem
        | some q2 => rw [hfe] at h; cases h

theorem merge_one_pass_no_merge_eq {rs : List FreeRect}
    (h : (merge_one_pass rs).2 = false) : (merge_one_pass rs).1 = rs := by
  induction rs using merge_one_pass.induct with
  | case1 => rw [merge_one_pass]
  | case2 r rest m rest2 hfind hlt ih =>
    rw [merge_one_pass_cons_some hfind] at h
    cases h
  | case3 r rest hfind ih =>
    rw [merge_one_pass_cons_none hfind] at h ⊢
    rw [ih h]

theorem merge_one_pass_no_merge_pairwise {rs : List FreeRect}
    (h : (merge_one_pass rs).2 = false) :
    rs.Pairwise fun a b => mergeable a b = false := by
  induction rs using merge_one_pass.induct with
  | case1 => exact List.Pairwise.nil
  | case2 r rest m rest2 hfind hlt ih =>
    rw [merge_one_pass_cons_some hfind] at h
    cases h
  | case3 r rest hfind ih =>
    rw [merge_one_pass_cons_none hfind] at h
    exact List.Pairwise.cons (find_merge_partner_none hfind) (ih h)

theorem merge_rectangles_pairwise_aux :
    ∀ (n : Nat) (rs : List FreeRect), rs.length ≤ n →
      (merge_rectangles rs).Pairwise fun a b => mergeable a b = false := by
  intro n
  induction n with
  | zero =>
    intro rs hrs
    rw [merge_rectangles]
    by_cases h : (merge_one_pass rs).2 = true
    · exact absurd ((merge_one_pass_length rs).2 h) (by omega)
    · rw [dif_neg h]
      have hfalse : (merge_one_pass rs).2 = false := by
        revert h
        cases (merge_one_pass rs).2 <;> simp
      rw [merge_one_pass_no_merge_eq hfalse]
      exact merge_one_pass_no_merge_pairwise hfalse
  | succ n ih =>
    intro rs hrs
    rw [merge_rectangles]
    by_cases h : (merge_one_pass rs).2 = true
    · rw [dif_pos h]
      have := (merge_one_pass_length rs).2 h
      exact ih _ (by omega)
    · rw [dif_neg h]
      have hfalse : (merge_one_pass rs).2 = false := by
        revert h
        cases (merge_one_pass rs).2 <;> simp
      rw [merge_one_pass_no_merge_eq hfalse]
      exact merge_one_pass_no_merge_pairwise hfalse

/-- Claim C10: the merge pass of `FreeRectangleManager._merge_rectangles`
terminates — witnessed by `merge_rectangles` being a total function whose
`while merged` loop is driven by the proved strict length decrease of every
merging pass — and its result is a fixed point: no remaining pair of
rectangles satisfies the horizontal-merge test (shared vertical edge, equal
`y` and height) or the vertical-merge test (shared horizontal edge, equal `x`
and width). -/
theorem claim_C10_merge_pass (rs : List FreeRect) :
    ((merge_one_pass rs).2 = true → (merge_one_pass rs).1.length < rs.length) ∧
      (merge_rectangles rs).Pairwise fun a b => mergeable a b = false :=
  ⟨(merge_one_pass_length rs).2, merge_rectangles_pairwise_aux rs.length rs le_rfl⟩

/-- Witness for claim C10 at a concrete mergeable pair: two unit squares
sharing a vertical edge merge in one pass (strict decrease from 2 rectangles
to 1), and the final state is pairwise unmergeable. -/
theorem claim_C10_witness :
    (merge_one_pass [(⟨0, 0, 1, 1⟩ : FreeRect), ⟨1, 0, 1, 1⟩]).1.length <
        ([(⟨0, 0, 1, 1⟩ : FreeRect), ⟨1, 0, 1, 1⟩] : List FreeRect).length ∧
      (merge_rectangles [(⟨0, 0, 1, 1⟩ : FreeRect), ⟨1, 0, 1, 1⟩]).Pairwise
        (fun a b => mergeable a b = false) := by
  have hfind : find_merge_partner (⟨0, 0, 1, 1⟩ : FreeRect) [⟨1, 0, 1, 1⟩] =
      some (⟨0, 0, 2, 1⟩, []) := by decide
  have hflag : (merge_one_pass [(⟨0, 0, 1, 1⟩ : FreeRect), ⟨1, 0, 1, 1⟩]).2 = true := by
    rw [merge_one_pass_cons_some hfind]
  exact ⟨(claim_C10_merge_pass _).1 hflag, (claim_C10_merge_pass _).2⟩

/-! ## Claim C8 — centering -/

theorem foldl_min_map_add (l : List Int) (a o : Int) :
    (l.map fun z => z + o).foldl min (a + o) = l.foldl min a + o := by
  induction l generalizing a with
  | nil => rfl
  | cons x xs ih =>
    simp only [List.map_cons, List.foldl_cons]
    rw [min_add_add_right]
    exact ih _

theorem foldl_max_map_add (l : List Int) (a o : Int) :
    (l.map fun z => z + o).foldl max (a + o) = l.foldl max a + o := by
  induction l generalizing a with
  | nil => rfl
  | cons x xs ih =>
    simp only [List.map_cons, List.foldl_cons]
    rw [max_add_add_right]
    exact ih _

theorem list_min_map_add (l : List Int) (o : Int) (h : l ≠ []) :
    list_min (l.map fun z => z + o) = list_min l + o := by
  cases l with
  | nil => exact absurd rfl h
  | cons a as =>
    simp only [List.map_cons, list_min]
    exact foldl_min_map_add as a o

theorem list_max_map_add (l : List Int) (o : Int) (h : l ≠ []) :
    list_max (l.map fun z => z + o) = list_max l + o := by
  cases l with
  | nil => exact absurd rfl h
  | cons a as =>
    simp only [List.map_cons, list_max]
    exact foldl_max_map_add as a o

theorem list_min_comp_translate (ps : List TilePos) (ox oy : Int) (hne : ps ≠ [])
    (f : TilePos → Int) (o : Int)
    (hf : ∀ t : TilePos, f ⟨t.x + ox, t.y + oy, t.w, t.h, t.orient⟩ = f t + o) :
    list_min ((translate_solution ps ox oy).map f) = list_min (ps.map f) + o := by
  have hmap : (translate_solution ps ox oy).map f = (ps.map f).map fun z => z + o := by
    simp only [translate_solution, List.map_map]
    exact List.map_congr_left fun t _ => hf t
  rw [hmap, list_min_map_add _ _ (by simpa using hne)]

theorem list_max_comp_translate (ps : List TilePos) (ox oy : Int) (hne : ps ≠ [])
    (f : TilePos → Int) (o : Int)
    (hf : ∀ t : TilePos, f ⟨t.x + ox, t.y + oy, t.w, t.h, t.orient⟩ = f t + o) :
    list_max ((translate_solution ps ox oy).map f) = list_max (ps.map f) + o := by
  have hmap : (translate_solution ps ox oy).map f = (ps.map f).map fun z => z + o := by
    simp only [translate_solution, List.map_map]
    exact List.map_congr_left fun t _ => hf t
  rw [hmap, list_max_map_add _ _ (by simpa using hne)]

theorem translate_solution_ne_nil {ps : List TilePos} (hne : ps ≠ []) (ox oy : Int) :
    translate_solution ps ox oy ≠ [] := by
  simpa [translate_solution] using hne

/-- The bounding box of a translated non-empty placement list shifts by the
offset. -/
theorem bbox_translate (ps : List TilePos) (ox oy : Int) (hne : ps ≠ []) :
    calculate_bounding_box (translate_solution ps ox oy) =
      (list_min (ps.map fun t => t.x) + ox,
       list_min (ps.map fun t => t.y) + oy,
       list_max (ps.map fun t => t.x + t.w) + ox,
       list_max (ps.map fun t => t.y + t.h) + oy) := by
  rw [calculate_bounding_box, if_neg (translate_solution_ne_nil hne ox oy)]
  rw [list_min_comp_translate ps ox oy hne (fun t => t.x) ox fun t => rfl]
  rw [list_min_comp_translate ps ox oy hne (fun t => t.y) oy fun t => rfl]
  rw [list_max_comp_translate ps ox oy hne (fun t => t.x + t.w) ox fun t => by
    show t.x + ox + t.w = t.x + t.w + ox
    ring]
  rw [list_max_comp_translate ps ox oy hne (fun t => t.y + t.h) oy fun t => by
    show t.y + oy + t.h = t.y + t.h + oy
    ring]

/-- `center_solution` on a non-empty list is the translation by the computed
centering offsets. -/
theorem center_solution_eq_translate (ps : List TilePos) (cw ch : Int) (hne : ps ≠ []) :
    center_solution ps cw ch =
      translate_solution ps
        (Int.fdiv (cw - (list_max (ps.map fun t => t.x + t.w) -
            list_min (ps.map fun t => t.x))) 2 - list_min (ps.map fun t => t.x))
        (Int.fdiv (ch - (list_max (ps.map fun t => t.y + t.h) -
            list_min (ps.map fun t => t.y))) 2 - list_min (ps.map fun t => t.y)) := by
  rw [center_solution, if_neg hne]

/-- Bounding box of the centred list: the minima land on
`(cw - used_w) // 2` and `(ch - used_h) // 2`. -/
theorem bbox_center_solution (ps : List TilePos) (cw ch : Int) (hne : ps ≠ []) :
    calculate_bounding_box (center_solution ps cw ch) =
      (Int.fdiv (cw - (list_max (ps.map fun t => t.x + t.w) -
          list_min (ps.map fun t => t.x))) 2,
       Int.fdiv (ch - (list_max (ps.map fun t => t.y + t.h) -
          list_min (ps.map fun t => t.y))) 2,
       Int.fdiv (cw - (list_max (ps.map fun t => t.x + t.w) -
          list_min (ps.map fun t => t.x))) 2 +
         (list_max (ps.map fun t => t.x + t.w) - list_min (ps.map fun t => t.x)),
       Int.fdiv (ch - (list_max (ps.map fun t => t.y + t.h) -
          list_min (ps.map fun t => t.y))) 2 +
         (list_max (ps.map fun t => t.y + t.h) - list_min (ps.map fun t => t.y))) := by
  rw [center_solution_eq_translate ps cw ch hne, bbox_translate ps _ _ hne]
  refine congrArg₂ _ (by ring) (congrArg₂ _ (by ring) (congrArg₂ _ (by ring) (by ring)))

/-- For any integer `v`, `2 * (v // 2)` is within `(v - 2, v]`. -/
theorem two_mul_fdiv_two_bounds (v : Int) :
    0 ≤ v - 2 * Int.fdiv v 2 ∧ v - 2 * Int.fdiv v 2 < 2 := by
  rw [Int.fdiv_eq_ediv _ (by norm_num)]
  have hd := Int.ediv_add_emod v 2
  have h1 := Int.emod_nonneg v (show (2 : Int) ≠ 0 by norm_num)
  have h2 := Int.emod_lt_of_pos v (show (0 : Int) < 2 by norm_num)
  omega

/-- Integer-to-rational step: if the doubled center is within 2 of the doubled
target, the center is within 1 of the target. -/
theorem half_abs_le_one {s c : Int} (h : |s - c| ≤ 2) :
    |((s : Rat)) / 2 - (c : Rat) / 2| ≤ 1 := by
  have heq : ((s : Rat)) / 2 - (c : Rat) / 2 = ((s - c : Int) : Rat) / 2 := by
    push_cast
    ring
  rw [heq, abs_div]
  have h2 : |(2 : Rat)| = 2 := by norm_num
  rw [h2, div_le_one (by norm_num)]
  calc |((s - c : Int) : Rat)| = ((|s - c| : Int) : Rat) := by
        rw [Int.cast_abs]
    _ ≤ ((2 : Int) : Rat) := by exact_mod_cast h
    _ = 2 := by norm_num

/-- Claim C8: for every non-empty placement list that fits inside the
container, after `center_solution` the bounding-box center lies within 1 unit
of `(container_w / 2, container_h / 2)` on each axis, and applying
`center_solution` twice yields the same bounding box as applying it once. -/
theorem claim_C8_centering (ps : List TilePos) (cw ch : Int) (hne : ps ≠ [])
    (hfit : ∀ t ∈ ps, tileInBounds cw ch t) :
    (|(((calculate_bounding_box (center_solution ps cw ch)).1 +
          (calculate_bounding_box (center_solution ps cw ch)).2.2.1 : Int) : Rat) / 2 -
        (cw : Rat) / 2| ≤ 1 ∧
      |(((calculate_bounding_box (center_solution ps cw ch)).2.1 +
          (calculate_bounding_box (center_solution ps cw ch)).2.2.2 : Int) : Rat) / 2 -
        (ch : Rat) / 2| ≤ 1) ∧
      calculate_bounding_box (center_solution (center_solution ps cw ch) cw ch) =
        calculate_bounding_box (center_solution ps cw ch) := by
  clear hfit
  have hbox := bbox_center_solution ps cw ch hne
  set ux := list_max (ps.map fun t => t.x + t.w) - list_min (ps.map fun t => t.x) with hux
  set uy := list_max (ps.map fun t => t.y + t.h) - list_min (ps.map fun t => t.y) with huy
  have hcne : center_solution ps cw ch ≠ [] := by
    rw [center_solution_eq_translate ps cw ch hne]
    exact translate_solution_ne_nil hne _ _
  constructor
  · rw [hbox]
    dsimp only
    constructor
    · refine half_abs_le_one ?_
      have hb := two_mul_fdiv_two_bounds (cw - ux)
      rw [abs_le]
      omega
    · refine half_abs_le_one ?_
      have hb := two_mul_fdiv_two_bounds (ch - uy)
      rw [abs_le]
      omega
  · -- second application translates by zero offsets
    have hbox2 := hbox
    rw [calculate_bounding_box, if_neg hcne] at hbox2
    simp only [Prod.mk.injEq] at hbox2
    obtain ⟨hm1, hm2, hm3, hm4⟩ := hbox2
    rw [center_solution_eq_translate (center_solution ps cw ch) cw ch hcne]
    rw [hm1, hm2, hm3, hm4]
    have hox : Int.fdiv (cw - (Int.fdiv (cw - ux) 2 + ux - Int.fdiv (cw - ux) 2)) 2 -
        Int.fdiv (cw - ux) 2 = 0 := by
      have : cw - (Int.fdiv (cw - ux) 2 + ux - Int.fdiv (cw - ux) 2) = cw - ux := by ring
      rw [this]
      ring
    have hoy : Int.fdiv (ch - (Int.fdiv (ch - uy) 2 + uy - Int.fdiv (ch - uy) 2)) 2 -
        Int.fdiv (ch - uy) 2 = 0 := by
      have : ch - (Int.fdiv (ch - uy) 2 + uy - Int.fdiv (ch - uy) 2) = ch - uy := by ring
      rw [this]
      ring
    rw [hox, hoy]
    rw [bbox_translate _ 0 0 hcne]
    rw [calculate_bounding_box, if_neg hcne]
    refine congrArg₂ _ (by ring) (congrArg₂ _ (by ring) (congrArg₂ _ (by ring) (by ring)))

/-- Witness for claim C8 at the concrete list `[(0,0,2,1)]` in a 5×5
container. -/
theorem claim_C8_witness :
    ([(⟨0, 0, 2, 1, "original"⟩ : TilePos)] ≠ []) ∧
      (∀ t ∈ [(⟨0, 0, 2, 1, "original"⟩ : TilePos)], tileInBounds 5 5 t) ∧
      ((|(((calculate_bounding_box
              (center_solution [(⟨0, 0, 2, 1, "original"⟩ : TilePos)] 5 5)).1 +
            (calculate_bounding_box
              (center_solution [(⟨0, 0, 2, 1, "original"⟩ : TilePos)] 5 5)).2.2.1 :
            Int) : Rat) / 2 - ((5 : Int) : Rat) / 2| ≤ 1 ∧
        |(((calculate_bounding_box
              (center_solution [(⟨0, 0, 2, 1, "original"⟩ : TilePos)] 5 5)).2.1 +
            (calculate_bounding_box
              (center_solution [(⟨0, 0, 2, 1, "original"⟩ : TilePos)] 5 5)).2.2.2 :
            Int) : Rat) / 2 - ((5 : Int) : Rat) / 2| ≤ 1) ∧
        calculate_bounding_box
            (center_solution
              (center_solution [(⟨0, 0, 2, 1, "original"⟩ : TilePos)] 5 5) 5 5) =
          calculate_bounding_box
            (center_solution [(⟨0, 0, 2, 1, "original"⟩ : TilePos)] 5 5)) :=
  ⟨by decide, by decide, claim_C8_centering _ 5 5 (by decide) (by decide)⟩

/-! ## Claim C1 — non-overlap and bounds for the three solvers

Common geometric facts about `rectangles_overlap`. -/

theorem rectangles_overlap_iff {x1 y1 w1 h1 x2 y2 w2 h2 : Int} :
    rectangles_overlap x1 y1 w1 h1 x2 y2 w2 h2 = true ↔
      x2 < x1 + w1 ∧ x1 < x2 + w2 ∧ y2 < y1 + h1 ∧ y1 < y2 + h2 := by
  simp only [rectangles_overlap, Bool.not_eq_eq_eq_not, Bool.not_true, Bool.or_eq_false_iff,
    decide_eq_false_iff_not, not_le]
  tauto

theorem overlap_false_of_x_split {x1 y1 w1 h1 x2 y2 w2 h2 : Int} (h : x1 + w1 ≤ x2) :
    rectangles_overlap x1 y1 w1 h1 x2 y2 w2 h2 = false := by
  rw [Bool.eq_false_iff]
  intro hcon
  rw [rectangles_overlap_iff] at hcon
  omega

theorem overlap_false_of_y_split {x1 y1 w1 h1 x2 y2 w2 h2 : Int} (h : y1 + h1 ≤ y2) :
    rectangles_overlap x1 y1 w1 h1 x2 y2 w2 h2 = false := by
  rw [Bool.eq_false_iff]
  intro hcon
  rw [rectangles_overlap_iff] at hcon
  omega

/-- Two overlapping rectangles of positive size share an integer cell. -/
theorem overlap_common_cell {x1 y1 w1 h1 x2 y2 w2 h2 : Int}
    (h : rectangles_overlap x1 y1 w1 h1 x2 y2 w2 h2 = true)
    (hw1 : 1 ≤ w1) (hh1 : 1 ≤ h1) (hw2 : 1 ≤ w2) (hh2 : 1 ≤ h2) :
    ∃ a b : Int, (x1 ≤ a ∧ a < x1 + w1 ∧ y1 ≤ b ∧ b < y1 + h1) ∧
      (x2 ≤ a ∧ a < x2 + w2 ∧ y2 ≤ b ∧ b < y2 + h2) := by
  rw [rectangles_overlap_iff] at h
  exact ⟨max x1 x2, max y1 y2, ⟨by omega, by omega, by omega, by omega⟩,
    by omega, by omega, by omega, by omega⟩

/-! ### Mathematical solver soundness -/

theorem mem_find_rectangular_arrangements {p : PackingProblem} {arr : Arrangement}
    (h : arr ∈ find_rectangular_arrangements p) :
    1 ≤ arr.rows ∧ 1 ≤ arr.cols ∧
      arr.cols * p.tile_w ≤ p.container_w ∧ arr.rows * p.tile_h ≤ p.container_h ∧
      arr.start_x = Int.fdiv (p.container_w - arr.cols * p.tile_w) 2 ∧
      arr.start_y = Int.fdiv (p.container_h - arr.rows * p.tile_h) 2 := by
  unfold find_rectangular_arrangements at h
  rw [mem_py_sorted] at h
  obtain ⟨rows, hrows, h⟩ := List.mem_flatMap.mp h
  obtain ⟨cols, hcols, h⟩ := List.mem_flatMap.mp h
  rw [mem_pyRange] at hrows hcols
  simp only at h
  split_ifs at h with h1 h2
  · rw [List.mem_singleton] at h
    subst h
    dsimp only
    exact ⟨by omega, by omega, h2.1, h2.2, rfl, rfl⟩
  · cases h
  · cases h

theorem mem_arrangement_positions {p : PackingProblem} {a : Arrangement} {t : TilePos}
    (h : t ∈ arrangement_positions p a) :
    ∃ r c : Int, 0 ≤ r ∧ r < a.rows ∧ 0 ≤ c ∧ c < a.cols ∧
      t = ⟨a.start_x + c * p.tile_w, a.start_y + r * p.tile_h,
        p.tile_w, p.tile_h, "original"⟩ := by
  unfold arrangement_positions at h
  obtain ⟨r, hr, h⟩ := List.mem_flatMap.mp h
  obtain ⟨c, hc, h⟩ := List.mem_map.mp h
  rw [mem_pyRange] at hr hc
  exact ⟨r, c, by omega, by omega, by omega, by omega, h.symm⟩

/-- `(c+1) * w ≤ cols * w` etc., packaged for the grid arithmetic. -/
theorem succ_mul_le_of_lt {c cols w : Int} (hw : 0 ≤ w) (h : c < cols) :
    (c + 1) * w ≤ cols * w :=
  mul_le_mul_of_nonneg_right (by omega) hw

theorem arrangement_positions_ok (p : PackingProblem) (hp : ProblemValid p)
    {a : Arrangement} (ha : a ∈ find_rectangular_arrangements p) :
    placements_ok p.container_w p.container_h (arrangement_positions p a) := by
  obtain ⟨hr1, hc1, hcw, hrh, hsx, hsy⟩ := mem_find_rectangular_arrangements ha
  obtain ⟨hpw, hph, htw, hth, hfitw, hfith⟩ := hp
  have hsx0 : 0 ≤ a.start_x := by
    rw [hsx]
    exact Int.fdiv_nonneg (by omega) (by norm_num)
  have hsy0 : 0 ≤ a.start_y := by
    rw [hsy]
    exact Int.fdiv_nonneg (by omega) (by norm_num)
  have hsxw : a.start_x + a.cols * p.tile_w ≤ p.container_w := by
    have : Int.fdiv (p.container_w - a.cols * p.tile_w) 2 ≤
        p.container_w - a.cols * p.tile_w := by
      rw [Int.fdiv_eq_ediv _ (by norm_num)]
      exact Int.ediv_le_self _ (by omega)
    omega
  have hsyh : a.start_y + a.rows * p.tile_h ≤ p.container_h := by
    have : Int.fdiv (p.container_h - a.rows * p.tile_h) 2 ≤
        p.container_h - a.rows * p.tile_h := by
      rw [Int.fdiv_eq_ediv _ (by norm_num)]
      exact Int.ediv_le_self _ (by omega)
    omega
  constructor
  · intro t ht
    obtain ⟨r, c, hr0, hrlt, hc0, hclt, rfl⟩ := mem_arrangement_positions ht
    have hx1 : 0 ≤ c * p.tile_w := mul_nonneg hc0 (by omega)
    have hy1 : 0 ≤ r * p.tile_h := mul_nonneg hr0 (by omega)
    have hx2 : (c + 1) * p.tile_w ≤ a.cols * p.tile_w := succ_mul_le_of_lt (by omega) hclt
    have hy2 : (r + 1) * p.tile_h ≤ a.rows * p.tile_h := succ_mul_le_of_lt (by omega) hrlt
    refine ⟨by dsimp only; omega, by dsimp only; omega, ?_, ?_⟩
    · dsimp only
      have : c * p.tile_w + p.tile_w = (c + 1) * p.tile_w := by ring
      omega
    · dsimp only
      have : r * p.tile_h + p.tile_h = (r + 1) * p.tile_h := by ring
      omega
  · unfold arrangement_positions
    rw [List.pairwise_flatMap]
    constructor
    · intro r _
      rw [List.pairwise_map]
      refine (pyRange_pairwise_lt 0 a.cols).imp ?_
      intro c1 c2 hlt
      refine overlap_false_of_x_split ?_
      dsimp only
      have : (c1 + 1) * p.tile_w ≤ c2 * p.tile_w :=
        mul_le_mul_of_nonneg_right (by omega) (by omega)
      have h2 : c1 * p.tile_w + p.tile_w = (c1 + 1) * p.tile_w := by ring
      omega
    · refine (pyRange_pairwise_lt 0 a.rows).imp ?_
      intro r1 r2 hlt t1 ht1 t2 ht2
      obtain ⟨c1, hmc1, rfl⟩ := List.mem_map.mp ht1
      obtain ⟨c2, hmc2, rfl⟩ := List.mem_map.mp ht2
      refine overlap_false_of_y_split ?_
      dsimp only
      have : (r1 + 1) * p.tile_h ≤ r2 * p.tile_h :=
        mul_le_mul_of_nonneg_right (by omega) (by omega)
      have h2 : r1 * p.tile_h + p.tile_h = (r1 + 1) * p.tile_h := by ring
      omega

theorem foldl_pick_mem (rest : List Arrangement) :
    ∀ a : Arrangement,
      rest.foldl (fun acc c => if c.total > acc.total then c else acc) a ∈ a :: rest := by
  induction rest with
  | nil => intro a; exact List.mem_singleton.mpr rfl
  | cons b bs ih =>
    intro a
    rw [List.foldl_cons]
    by_cases hb : b.total > a.total
    · rw [if_pos hb]
      rcases List.mem_cons.mp (ih b) with h | h
      · rw [h]
        exact List.mem_cons_of_mem _ (List.mem_cons_self _ _)
      · exact List.mem_cons_of_mem _ (List.mem_cons_of_mem _ h)
    · rw [if_neg hb]
      rcases List.mem_cons.mp (ih a) with h | h
      · rw [h]
        exact List.mem_cons_self _ _
      · exact List.mem_cons_of_mem _ (List.mem_cons_of_mem _ h)

theorem mathematical_solve_ok (p : PackingProblem) (hp : ProblemValid p) :
    placements_ok p.container_w p.container_h (mathematical_solve p).tile_positions := by
  unfold mathematical_solve
  cases harr : find_rectangular_arrangements p with
  | nil =>
    dsimp only
    exact ⟨fun t ht => absurd ht (List.not_mem_nil t), List.Pairwise.nil⟩
  | cons a rest =>
    dsimp only
    have hmem : pick_best_arrangement a rest ∈ find_rectangular_arrangements p := by
      rw [harr]
      exact foldl_pick_mem rest a
    exact arrangement_positions_ok p hp hmem

theorem mathematical_solve_all_ok (p : PackingProblem) (hp : ProblemValid p)
    (ms : Int) :
    ∀ s ∈ mathematical_solve_all p ms,
      placements_ok p.container_w p.container_h s.tile_positions := by
  intro s hs
  unfold mathematical_solve_all at hs
  rcases harr : find_rectangular_arrangements p with _ | ⟨a, rest⟩
  · rw [harr] at hs
    cases hs
  · rw [harr] at hs
    obtain ⟨arr, harrmem, rfl⟩ := List.mem_map.mp hs
    have h1 : arr ∈ find_rectangular_arrangements p := by
      rw [harr]
      exact List.mem_of_mem_filter (List.mem_of_mem_take harrmem)
    exact arrangement_positions_ok p hp h1

/-! ### Greedy solver soundness -/

theorem can_place_at_iff {x y w h : Int} {occ : List (Int × Int)} :
    can_place_at x y w h occ = true ↔
      ∀ cx cy : Int, x ≤ cx → cx < x + w → y ≤ cy → cy < y + h → (cx, cy) ∉ occ := by
  simp only [can_place_at, List.all_eq_true, mem_pyRange, Bool.not_eq_eq_eq_not,
    Bool.not_true, decide_eq_false_iff_not]
  constructor
  · intro hall cx cy h1 h2 h3 h4
    exact hall cx ⟨h1, h2⟩ cy ⟨h3, h4⟩
  · intro hall cx hcx cy hcy
    exact hall cx cy hcx.1 hcx.2 hcy.1 hcy.2

theorem mem_tile_cells {a b x y w h : Int} :
    (a, b) ∈ tile_cells x y w h ↔ x ≤ a ∧ a < x + w ∧ y ≤ b ∧ b < y + h := by
  unfold tile_cells
  constructor
  · intro hmem
    obtain ⟨fx, hfx, hmem⟩ := List.mem_flatMap.mp hmem
    obtain ⟨fy, hfy, heq⟩ := List.mem_map.mp hmem
    rw [mem_pyRange] at hfx hfy
    rw [Prod.mk.injEq] at heq
    obtain ⟨rfl, rfl⟩ := heq
    omega
  · intro hb
    refine List.mem_flatMap.mpr ⟨a, mem_pyRange.mpr ⟨hb.1, hb.2.1⟩, ?_⟩
    exact List.mem_map.mpr ⟨b, mem_pyRange.mpr ⟨hb.2.2.1, hb.2.2.2⟩, rfl⟩

/-- Loop invariant of both greedy strategies: placed tiles are the problem's
tile size, are in bounds, have all their cells in `occupied`, and are
pairwise non-overlapping. -/
def GreedyInv (p : PackingProblem) (placed : List TilePos) (occ : List (Int × Int)) : Prop :=
  (∀ t ∈ placed,
      tileInBounds p.container_w p.container_h t ∧ t.w = p.tile_w ∧ t.h = p.tile_h ∧
        ∀ a b : Int, t.x ≤ a → a < t.x + t.w → t.y ≤ b → b < t.y + t.h → (a, b) ∈ occ) ∧
    placed.Pairwise fun u v => rectangles_overlap u.x u.y u.w u.h v.x v.y v.w v.h = false

theorem greedy_inv_step {p : PackingProblem} {placed : List TilePos}
    {occ : List (Int × Int)} {x y : Int} (hp : ProblemValid p)
    (hinv : GreedyInv p placed occ)
    (hx0 : 0 ≤ x) (hy0 : 0 ≤ y) (hxw : x + p.tile_w ≤ p.container_w)
    (hyh : y + p.tile_h ≤ p.container_h)
    (hfree : can_place_at x y p.tile_w p.tile_h occ = true) :
    GreedyInv p (placed ++ [⟨x, y, p.tile_w, p.tile_h, "original"⟩])
      (occ ++ tile_cells x y p.tile_w p.tile_h) := by
  obtain ⟨hpw0, hph0, htw0, hth0, _, _⟩ := hp
  obtain ⟨hall, hpw⟩ := hinv
  constructor
  · intro t ht
    rcases List.mem_append.mp ht with h | h
    · obtain ⟨hb, hw, hh, hcells⟩ := hall t h
      exact ⟨hb, hw, hh, fun a b h1 h2 h3 h4 =>
        List.mem_append_left _ (hcells a b h1 h2 h3 h4)⟩
    · rw [List.mem_singleton] at h
      subst h
      refine ⟨⟨hx0, hy0, hxw, hyh⟩, rfl, rfl, ?_⟩
      intro a b h1 h2 h3 h4
      exact List.mem_append_right _ (mem_tile_cells.mpr ⟨h1, h2, h3, h4⟩)
  · rw [List.pairwise_append]
    refine ⟨hpw, List.pairwise_singleton _ _, ?_⟩
    intro u hu v hv
    rw [List.mem_singleton] at hv
    subst hv
    obtain ⟨hb, hw, hh, hcells⟩ := hall u hu
    rw [Bool.eq_false_iff]
    intro hcon
    obtain ⟨a, b, hin1, hin2⟩ := overlap_common_cell hcon
      (by omega) (by omega) (by dsimp only; omega) (by dsimp only; omega)
    have hmem : (a, b) ∈ occ := hcells a b hin1.1 hin1.2.1 hin1.2.2.1 hin1.2.2.2
    have hnot := can_place_at_iff.mp hfree a b
      (by dsimp only at hin2 ⊢; omega) (by dsimp only at hin2 ⊢; omega)
      (by dsimp only at hin2 ⊢; omega) (by dsimp only at hin2 ⊢; omega)
    exact hnot hmem

theorem greedy_inv_placements_ok {p : PackingProblem} {placed : List TilePos}
    {occ : List (Int × Int)} (hinv : GreedyInv p placed occ) :
    placements_ok p.container_w p.container_h placed :=
  ⟨fun t ht => (hinv.1 t ht).1, hinv.2⟩

theorem find_best_bottom_left_spec {p : PackingProblem} {occ : List (Int × Int)}
    {x y : Int} (h : find_best_bottom_left_position p occ = some (x, y)) :
    0 ≤ x ∧ 0 ≤ y ∧ x + p.tile_w ≤ p.container_w ∧ y + p.tile_h ≤ p.container_h ∧
      can_place_at x y p.tile_w p.tile_h occ = true := by
  unfold find_best_bottom_left_position at h
  have hmem := List.mem_of_find?_eq_some h
  have hpred := List.find?_some h
  obtain ⟨y0, hy0, hmem⟩ := List.mem_flatMap.mp hmem
  obtain ⟨x0, hx0, heq⟩ := List.mem_map.mp hmem
  rw [mem_pyRange] at hy0 hx0
  rw [Prod.mk.injEq] at heq
  obtain ⟨rfl, rfl⟩ := heq
  exact ⟨by omega, by omega, by omega, by omega, hpred⟩

theorem greedy_bottom_left_go_ok (p : PackingProblem) (hp : ProblemValid p) :
    ∀ (fuel : Nat) (placed : List TilePos) (occ : List (Int × Int)),
      GreedyInv p placed occ →
      placements_ok p.container_w p.container_h (greedy_bottom_left_go p fuel placed occ) := by
  intro fuel
  induction fuel with
  | zero => intro placed occ hinv; exact greedy_inv_placements_ok hinv
  | succ n ih =>
    intro placed occ hinv
    rw [greedy_bottom_left_go]
    cases hfind : find_best_bottom_left_position p occ with
    | none => exact greedy_inv_placements_ok hinv
    | some q =>
      obtain ⟨x, y⟩ := q
      obtain ⟨h1, h2, h3, h4, h5⟩ := find_best_bottom_left_spec hfind
      exact ih _ _ (greedy_inv_step hp hinv h1 h2 h3 h4 h5)

theorem greedy_solve_bottom_left_ok (p : PackingProblem) (hp : ProblemValid p) :
    placements_ok p.container_w p.container_h (greedy_solve_bottom_left p) :=
  greedy_bottom_left_go_ok p hp _ [] [] ⟨fun t ht => absurd ht (List.not_mem_nil t),
    List.Pairwise.nil⟩

theorem mem_center_out_candidates {p : PackingProblem} {q : Int × Int × Int}
    (h : q ∈ center_out_candidates p) :
    0 ≤ q.2.1 ∧ 0 ≤ q.2.2 ∧ q.2.1 + p.tile_w ≤ p.container_w ∧
      q.2.2 + p.tile_h ≤ p.container_h := by
  unfold center_out_candidates at h
  obtain ⟨x, hx, h⟩ := List.mem_flatMap.mp h
  obtain ⟨y, hy, h⟩ := List.mem_flatMap.mp h
  rw [mem_pyRange] at hx hy
  simp only at h
  split_ifs at h with hcond
  · rw [List.mem_singleton] at h
    subst h
    refine ⟨?_, ?_, ?_, ?_⟩ <;> (dsimp only; omega)
  · cases h

theorem greedy_center_out_go_ok (p : PackingProblem) (hp : ProblemValid p) :
    ∀ (cands : List (Int × Int × Int)) (placed : List TilePos) (occ : List (Int × Int)),
      (∀ q ∈ cands, 0 ≤ q.2.1 ∧ 0 ≤ q.2.2 ∧ q.2.1 + p.tile_w ≤ p.container_w ∧
        q.2.2 + p.tile_h ≤ p.container_h) →
      GreedyInv p placed occ →
      placements_ok p.container_w p.container_h (greedy_center_out_go p cands placed occ) := by
  intro cands
  induction cands with
  | nil => intro placed occ _ hinv; exact greedy_inv_placements_ok hinv
  | cons q rest ih =>
    intro placed occ hb hinv
    obtain ⟨d, x, y⟩ := q
    rw [greedy_center_out_go]
    by_cases hcap : (placed.length : Int) ≥ p.effective_max_tiles
    · rw [if_pos hcap]
      exact greedy_inv_placements_ok hinv
    · rw [if_neg hcap]
      by_cases hfree : can_place_at x y p.tile_w p.tile_h occ = true
      · rw [if_pos hfree]
        have hq := hb (d, x, y) (List.mem_cons_self _ _)
        refine ih _ _ (fun q2 hq2 => hb q2 (List.mem_cons_of_mem _ hq2)) ?_
        exact greedy_inv_step hp hinv hq.1 hq.2.1 hq.2.2.1 hq.2.2.2 hfree
      · rw [if_neg hfree]
        exact ih _ _ (fun q2 hq2 => hb q2 (List.mem_cons_of_mem _ hq2)) hinv

theorem greedy_solve_center_out_ok (p : PackingProblem) (hp : ProblemValid p) :
    placements_ok p.container_w p.container_h (greedy_solve_center_out p) := by
  refine greedy_center_out_go_ok p hp _ [] [] ?_
    ⟨fun t ht => absurd ht (List.not_mem_nil t), List.Pairwise.nil⟩
  intro q hq
  rw [mem_py_sorted] at hq
  exact mem_center_out_candidates hq

/-! ### Backtracking solver soundness

The recursion invariant: every nonzero label occurring in the (in-range part
of the) grid occupies exactly one axis-aligned rectangle of positive size
lying inside the container, and all labels are below the next fresh tile id. -/

/-- Cell `(i, j)` (row, column) is inside the `container_h × container_w` grid. -/
def InRangeRC (p : PackingProblem) (i j : Int) : Prop :=
  0 ≤ i ∧ i < p.container_h ∧ 0 ≤ j ∧ j < p.container_w

/-- Label `n` occupies exactly the rectangle of columns `[x, x+w)` and rows
`[y, y+h)` in grid `g`. -/
def IsRectOf (g : Grid) (p : PackingProblem) (n : Nat) (x y w h : Int) : Prop :=
  0 ≤ x ∧ 0 ≤ y ∧ 1 ≤ w ∧ 1 ≤ h ∧ x + w ≤ p.container_w ∧ y + h ≤ p.container_h ∧
    ∀ i j : Int, InRangeRC p i j → (g i j = n ↔ x ≤ j ∧ j < x + w ∧ y ≤ i ∧ i < y + h)

/-- Every nonzero label present in the grid occupies exactly one in-bounds
rectangle. -/
def GridInv (g : Grid) (p : PackingProblem) : Prop :=
  ∀ n : Nat, n ≠ 0 → (∃ i j : Int, InRangeRC p i j ∧ g i j = n) →
    ∃ x y w h : Int, IsRectOf g p n x y w h

/-- All in-range labels are below the next fresh tile id. -/
def GridFresh (g : Grid) (p : PackingProblem) (nid : Nat) : Prop :=
  ∀ i j : Int, InRangeRC p i j → g i j < nid

theorem mem_row_major_cells {H W r c : Int} :
    (r, c) ∈ row_major_cells H W ↔ 0 ≤ r ∧ r < H ∧ 0 ≤ c ∧ c < W := by
  unfold row_major_cells
  constructor
  · intro hmem
    obtain ⟨r0, hr0, hmem⟩ := List.mem_flatMap.mp hmem
    obtain ⟨c0, hc0, heq⟩ := List.mem_map.mp hmem
    rw [mem_pyRange] at hr0 hc0
    rw [Prod.mk.injEq] at heq
    obtain ⟨rfl, rfl⟩ := heq
    omega
  · intro hb
    refine List.mem_flatMap.mpr ⟨r, mem_pyRange.mpr ⟨hb.1, hb.2.1⟩, ?_⟩
    exact List.mem_map.mpr ⟨c, mem_pyRange.mpr ⟨hb.2.2.1, hb.2.2.2⟩, rfl⟩

theorem can_place_iff {g : Grid} {H W r c h w : Int} :
    can_place g H W r c h w = true ↔
      r + h ≤ H ∧ c + w ≤ W ∧
        ∀ i j : Int, r ≤ i → i < r + h → c ≤ j → j < c + w → g i j = 0 := by
  simp only [can_place, Bool.and_eq_true, decide_eq_true_eq, List.all_eq_true,
    mem_pyRange, beq_iff_eq]
  constructor
  · intro hall
    exact ⟨hall.1.1, hall.1.2, fun i j h1 h2 h3 h4 => hall.2 i ⟨h1, h2⟩ j ⟨h3, h4⟩⟩
  · intro hall
    exact ⟨⟨hall.1, hall.2.1⟩, fun i hi j hj => hall.2.2 i j hi.1 hi.2 hj.1 hj.2⟩

theorem find_first_empty_spec {g : Grid} {H W r c : Int}
    (h : find_first_empty g H W = some (r, c)) :
    0 ≤ r ∧ r < H ∧ 0 ≤ c ∧ c < W ∧ g r c = 0 := by
  unfold find_first_empty at h
  have hmem := List.mem_of_find?_eq_some h
  have hpred := List.find?_some h
  rw [mem_row_major_cells] at hmem
  rw [beq_iff_eq] at hpred
  exact ⟨hmem.1, hmem.2.1, hmem.2.2.1, hmem.2.2.2, hpred⟩

/-- Placing a fresh tile on an empty in-bounds footprint preserves the grid
invariant and advances freshness. -/
theorem grid_inv_place {g : Grid} {p : PackingProblem} {r c : Int} {n : Nat}
    {h w : Int} (hInv : GridInv g p) (hF : GridFresh g p n) (hn : n ≠ 0)
    (hr : 0 ≤ r) (hc : 0 ≤ c) (hwp : 1 ≤ w) (hhp : 1 ≤ h)
    (hcan : can_place g p.container_h p.container_w r c h w = true) :
    GridInv (place_tile g r c h w n) p ∧ GridFresh (place_tile g r c h w n) p (n + 1) := by
  obtain ⟨hbh, hbw, hz⟩ := can_place_iff.mp hcan
  constructor
  · intro m hm hocc
    by_cases hmn : m = n
    · subst hmn
      refine ⟨c, r, w, h, hc, hr, hwp, hhp, hbw, hbh, ?_⟩
      intro i j hij
      unfold place_tile
      constructor
      · intro hval
        by_cases hfp : r ≤ i ∧ i < r + h ∧ c ≤ j ∧ j < c + w
        · omega
        · rw [if_neg hfp] at hval
          exact absurd hval (by have := hF i j hij; omega)
      · intro hrect
        rw [if_pos (by omega)]
    · obtain ⟨i0, j0, hij0, hval0⟩ := hocc
      have hio : g i0 j0 = m := by
        unfold place_tile at hval0
        by_cases hfp : r ≤ i0 ∧ i0 < r + h ∧ c ≤ j0 ∧ j0 < c + w
        · rw [if_pos hfp] at hval0
          exact absurd hval0.symm hmn
        · rw [if_neg hfp] at hval0
          exact hval0
      obtain ⟨x, y, w2, h2, hb1, hb2, hb3, hb4, hb5, hb6, hiff⟩ :=
        hInv m hm ⟨i0, j0, hij0, hio⟩
      refine ⟨x, y, w2, h2, hb1, hb2, hb3, hb4, hb5, hb6, ?_⟩
      intro i j hij
      unfold place_tile
      by_cases hfp : r ≤ i ∧ i < r + h ∧ c ≤ j ∧ j < c + w
      · rw [if_pos hfp]
        constructor
        · intro hval
          exact absurd hval.symm hmn
        · intro hrect
          have hzero : g i j = 0 := hz i j hfp.1 hfp.2.1 hfp.2.2.1 hfp.2.2.2
          have hval : g i j = m := (hiff i j hij).mpr hrect
          omega
      · rw [if_neg hfp]
        exact hiff i j hij
  · intro i j hij
    unfold place_tile
    by_cases hfp : r ≤ i ∧ i < r + h ∧ c ≤ j ∧ j < c + w
    · rw [if_pos hfp]
      omega
    · rw [if_neg hfp]
      have := hF i j hij
      omega

theorem run_len_pred (pred : Int → Bool) (i stop : Int) :
    ∀ k : Nat, k < run_len pred i stop →
      pred (i + (k : Int)) = true ∧ i + (k : Int) < stop := by
  induction i, stop using run_len.induct pred with
  | case1 i stop h ih =>
    intro k hk
    rw [run_len, dif_pos h] at hk
    cases k with
    | zero =>
      constructor
      · simpa using h.2
      · simpa using h.1
    | succ m =>
      have hm : m < run_len pred (i + 1) stop := by omega
      have hrec := ih m hm
      have heq : i + ((m + 1 : Nat) : Int) = i + 1 + (m : Int) := by
        push_cast
        ring
      rw [heq]
      exact hrec
  | case2 i stop h =>
    intro k hk
    rw [run_len, dif_neg h] at hk
    exact absurd hk (by omega)

/-- The tile reconstructed by `_extract_solution` at a cell of label `n` is
contained in `n`'s rectangle (and therefore in bounds). -/
theorem tile_at_ok {g : Grid} {p : PackingProblem} {r c : Int} {n : Nat}
    (hInv : GridInv g p) (hin : InRangeRC p r c) (hval : g r c = n) (hn : n ≠ 0) :
    ∃ x y w h : Int, IsRectOf g p n x y w h ∧
      x ≤ (tile_at g p r c n).x ∧
      (tile_at g p r c n).x + (tile_at g p r c n).w ≤ x + w ∧
      y ≤ (tile_at g p r c n).y ∧
      (tile_at g p r c n).y + (tile_at g p r c n).h ≤ y + h ∧
      1 ≤ (tile_at g p r c n).w ∧ 1 ≤ (tile_at g p r c n).h := by
  obtain ⟨x, y, w, h, hrect⟩ := hInv n hn ⟨r, c, hin, hval⟩
  obtain ⟨hx0, hy0, hw1, hh1, hxw, hyh, hiff⟩ := hrect
  have hcell := (hiff r c hin).mp hval
  have hwrun :
      c + 1 + ((run_len (fun j => g r j == n) (c + 1) p.container_w : Nat) : Int) ≤
        x + w := by
    rcases Nat.eq_zero_or_pos (run_len (fun j => g r j == n) (c + 1) p.container_w)
      with h0 | hpos
    · rw [h0]
      push_cast
      omega
    · have hlast := run_len_pred (fun j => g r j == n) (c + 1) p.container_w
        (run_len (fun j => g r j == n) (c + 1) p.container_w - 1) (by omega)
      have hvn : g r (c + 1 +
          ((run_len (fun j => g r j == n) (c + 1) p.container_w - 1 : Nat) : Int)) = n := by
        have := hlast.1
        rwa [beq_iff_eq] at this
      have hrange : InRangeRC p r (c + 1 +
          ((run_len (fun j => g r j == n) (c + 1) p.container_w - 1 : Nat) : Int)) :=
        ⟨hin.1, hin.2.1, by omega, hlast.2⟩
      have hmem := (hiff _ _ hrange).mp hvn
      omega
  have hhrun :
      r + 1 + ((run_len (fun i => g i c == n) (r + 1) p.container_h : Nat) : Int) ≤
        y + h := by
    rcases Nat.eq_zero_or_pos (run_len (fun i => g i c == n) (r + 1) p.container_h)
      with h0 | hpos
    · rw [h0]
      push_cast
      omega
    · have hlast := run_len_pred (fun i => g i c == n) (r + 1) p.container_h
        (run_len (fun i => g i c == n) (r + 1) p.container_h - 1) (by omega)
      have hvn : g (r + 1 +
          ((run_len (fun i => g i c == n) (r + 1) p.container_h - 1 : Nat) : Int)) c = n := by
        have := hlast.1
        rwa [beq_iff_eq] at this
      have hrange : InRangeRC p (r + 1 +
          ((run_len (fun i => g i c == n) (r + 1) p.container_h - 1 : Nat) : Int)) c :=
        ⟨by omega, hlast.2, hin.2.2.1, hin.2.2.2⟩
      have hmem := (hiff _ _ hrange).mp hvn
      omega
  refine ⟨x, y, w, h, ⟨hx0, hy0, hw1, hh1, hxw, hyh, hiff⟩, ?_, ?_, ?_, ?_, ?_, ?_⟩ <;>
    · unfold tile_at
      dsimp only
      omega

/-- What the extraction scan guarantees for each recorded entry: a nonzero
key and a positive-size tile contained in the key's grid rectangle. -/
def EntryOK (g : Grid) (p : PackingProblem) (e : Nat × TilePos) : Prop :=
  e.1 ≠ 0 ∧ 1 ≤ e.2.w ∧ 1 ≤ e.2.h ∧
    ∃ x y w h : Int, IsRectOf g p e.1 x y w h ∧
      x ≤ e.2.x ∧ e.2.x + e.2.w ≤ x + w ∧ y ≤ e.2.y ∧ e.2.y + e.2.h ≤ y + h

theorem extract_entries_spec (g : Grid) (p : PackingProblem) (hInv : GridInv g p) :
    (∀ e ∈ extract_entries g p, EntryOK g p e) ∧
      (extract_entries g p).Pairwise fun e1 e2 => e1.1 ≠ e2.1 := by
  unfold extract_entries
  suffices haux : ∀ L : List (Int × Int), (∀ rc ∈ L, InRangeRC p rc.1 rc.2) →
      ∀ acc : List (Nat × TilePos), (∀ e ∈ acc, EntryOK g p e) →
        acc.Pairwise (fun e1 e2 => e1.1 ≠ e2.1) →
        (∀ e ∈ L.foldl (extract_step g p) acc, EntryOK g p e) ∧
          (L.foldl (extract_step g p) acc).Pairwise fun e1 e2 => e1.1 ≠ e2.1 by
    refine haux _ ?_ [] (fun e he => absurd he (List.not_mem_nil e)) List.Pairwise.nil
    intro rc hrc
    have hb := mem_row_major_cells.mp hrc
    exact ⟨hb.1, hb.2.1, hb.2.2.1, hb.2.2.2⟩
  intro L
  induction L with
  | nil => intro _ acc hacc hpw; exact ⟨hacc, hpw⟩
  | cons rc rest ih =>
    intro hLin acc hacc hpw
    rw [List.foldl_cons]
    refine ih (fun q hq => hLin q (List.mem_cons_of_mem _ hq)) _ ?_ ?_
    · intro e he
      unfold extract_step at he
      dsimp only at he
      split_ifs at he with hcond
      · rcases List.mem_append.mp he with h | h
        · exact hacc e h
        · rw [List.mem_singleton] at h
          subst h
          have hrcin := hLin rc (List.mem_cons_self _ _)
          obtain ⟨x, y, w, h, hrect, h1, h2, h3, h4, h5, h6⟩ :=
            tile_at_ok hInv hrcin rfl hcond.1
          exact ⟨hcond.1, h5, h6, x, y, w, h, hrect, h1, h2, h3, h4⟩
      · exact hacc e he
    · unfold extract_step
      dsimp only
      split_ifs with hcond
      · rw [List.pairwise_append]
        refine ⟨hpw, List.pairwise_singleton _ _, ?_⟩
        intro e1 he1 e2 he2
        rw [List.mem_singleton] at he2
        subst he2
        exact hcond.2 e1 he1
      · exact hpw

theorem overlap_false_symm {x1 y1 w1 h1 x2 y2 w2 h2 : Int}
    (h : rectangles_overlap x1 y1 w1 h1 x2 y2 w2 h2 = false) :
    rectangles_overlap x2 y2 w2 h2 x1 y1 w1 h1 = false := by
  rw [Bool.eq_false_iff] at h ⊢
  intro hcon
  apply h
  rw [rectangles_overlap_iff] at hcon ⊢
  omega

/-- Any solution extracted from a grid satisfying the invariant has
non-overlapping in-bounds placements. -/
theorem extract_solution_ok (g : Grid) (p : PackingProblem) (hInv : GridInv g p) :
    placements_ok p.container_w p.container_h (extract_solution g p) := by
  obtain ⟨hok, hkeys⟩ := extract_entries_spec g p hInv
  unfold extract_solution
  have hperm := py_sorted_perm (fun a b => Nat.blt a.1 b.1) (extract_entries g p)
  constructor
  · intro t ht
    obtain ⟨e, he, rfl⟩ := List.mem_map.mp ht
    have hee : e ∈ extract_entries g p := hperm.mem_iff.mp he
    obtain ⟨hne, hw1, hh1, x, y, w, h, hrect, h1, h2, h3, h4⟩ := hok e hee
    obtain ⟨hx0, hy0, _, _, hxw, hyh, _⟩ := hrect
    exact ⟨by omega, by omega, by omega, by omega⟩
  · rw [List.pairwise_map]
    have hpair : (extract_entries g p).Pairwise
        (fun e1 e2 => rectangles_overlap e1.2.x e1.2.y e1.2.w e1.2.h
          e2.2.x e2.2.y e2.2.w e2.2.h = false) := by
      refine hkeys.imp_of_mem ?_
      intro e1 e2 he1 he2 hne
      obtain ⟨hne1, hw1, hh1, x1, y1, w1, h1, hrect1, ha1, ha2, ha3, ha4⟩ := hok e1 he1
      obtain ⟨hne2, hw2, hh2, x2, y2, w2, h2, hrect2, hb1, hb2, hb3, hb4⟩ := hok e2 he2
      rw [Bool.eq_false_iff]
      intro hcon
      obtain ⟨a, b, hin1, hin2⟩ := overlap_common_cell hcon hw1 hh1 hw2 hh2
      obtain ⟨hx01, hy01, _, _, hxw1, hyh1, hiff1⟩ := hrect1
      obtain ⟨hx02, hy02, _, _, hxw2, hyh2, hiff2⟩ := hrect2
      have hinr : InRangeRC p b a := ⟨by omega, by omega, by omega, by omega⟩
      have hv1 : g b a = e1.1 :=
        (hiff1 b a hinr).mpr ⟨by omega, by omega, by omega, by omega⟩
      have hv2 : g b a = e2.1 :=
        (hiff2 b a hinr).mpr ⟨by omega, by omega, by omega, by omega⟩
      exact hne (hv1 ▸ hv2)
    exact (hperm.pairwise_iff fun hab => overlap_false_symm hab).mpr hpair

/-- Every solution recorded by the backtracking recursion is a valid packing:
the grid invariant is preserved through placements, and recording extracts
from an invariant grid. -/
theorem backtrack_aux_ok (p : PackingProblem) (hp : ProblemValid p) (ms : Int) :
    ∀ (fuel : Nat) (g : Grid) (tiles_left : Int) (tile_id : Nat)
      (sols : List (List TilePos)),
      GridInv g p → GridFresh g p tile_id → tile_id ≠ 0 →
      (∀ ps ∈ sols, placements_ok p.container_w p.container_h ps) →
      ∀ ps ∈ backtrack_aux p ms fuel g tiles_left tile_id sols,
        placements_ok p.container_w p.container_h ps := by
  intro fuel
  induction fuel with
  | zero =>
    intro g tl tid sols _ _ _ hsols ps hps
    exact hsols ps hps
  | succ n ih =>
    intro g tl tid sols hinv hfresh htid hsols ps hps
    rw [backtrack_aux] at hps
    by_cases hcap : (sols.length : Int) ≥ ms
    · rw [if_pos hcap] at hps
      exact hsols ps hps
    · rw [if_neg hcap] at hps
      cases hfe : find_first_empty g p.container_h p.container_w with
      | none =>
        rw [hfe] at hps
        rcases List.mem_append.mp hps with h | h
        · exact hsols ps h
        · rw [List.mem_singleton] at h
          subst h
          exact extract_solution_ok g p hinv
      | some rc =>
        obtain ⟨r, c⟩ := rc
        rw [hfe] at hps
        dsimp only at hps
        obtain ⟨hr0, hrlt, hc0, hclt, hval0⟩ := find_first_empty_spec hfe
        obtain ⟨hcw, hch, htw, hth, hfw, hfh⟩ := hp
        by_cases htl : tl = 0
        · rw [if_pos htl] at hps
          rcases List.mem_append.mp hps with h | h
          · exact hsols ps h
          · rw [List.mem_singleton] at h
            subst h
            exact extract_solution_ok g p hinv
        · rw [if_neg htl] at hps
          have hs1 : ∀ q ∈
              (if can_place g p.container_h p.container_w r c p.tile_h p.tile_w then
                backtrack_aux p ms n (place_tile g r c p.tile_h p.tile_w tid)
                  (tl - 1) (tid + 1) sols
              else sols),
              placements_ok p.container_w p.container_h q := by
            by_cases hcp : can_place g p.container_h p.container_w r c p.tile_h p.tile_w = true
            · rw [if_pos hcp]
              obtain ⟨hinv2, hfresh2⟩ := grid_inv_place hinv hfresh htid hr0 hc0
                (by omega) (by omega) hcp
              exact ih _ _ _ _ hinv2 hfresh2 (by omega) hsols
            · rw [if_neg hcp]
              exact hsols
          by_cases hrot : p.allow_rotation = true ∧ p.tile_w ≠ p.tile_h ∧
              can_place g p.container_h p.container_w r c p.tile_w p.tile_h = true
          · rw [if_pos hrot] at hps
            obtain ⟨hinv2, hfresh2⟩ := grid_inv_place hinv hfresh htid hr0 hc0
              (by omega) (by omega) hrot.2.2
            exact ih _ _ _ _ hinv2 hfresh2 (by omega) hs1 ps hps
          · rw [if_neg hrot] at hps
            exact hs1 ps hps

theorem empty_grid_inv (p : PackingProblem) : GridInv empty_grid p := by
  intro n hn hocc
  obtain ⟨i, j, _, hval⟩ := hocc
  exact absurd hval.symm hn

theorem empty_grid_fresh (p : PackingProblem) : GridFresh empty_grid p 1 := by
  intro i j _
  exact Nat.zero_lt_one

theorem backtrack_solutions_list_ok (p : PackingProblem) (hp : ProblemValid p)
    (ms : Int) :
    ∀ ps ∈ backtrack_solutions_list p ms,
      placements_ok p.container_w p.container_h ps := by
  intro ps hps
  exact backtrack_aux_ok p hp ms _ _ _ _ _ (empty_grid_inv p) (empty_grid_fresh p)
    (by omega) (fun q hq => absurd hq (List.not_mem_nil q)) ps hps

theorem backtrack_solve_all_ok (p : PackingProblem) (hp : ProblemValid p) (ms : Int) :
    ∀ s ∈ backtrack_solve_all p ms,
      placements_ok p.container_w p.container_h s.tile_positions := by
  intro s hs
  unfold backtrack_solve_all at hs
  dsimp only at hs
  split_ifs at hs with hnil
  · cases hs
  · obtain ⟨positions, hmem, rfl⟩ := List.mem_map.mp hs
    have h1 : positions ∈ backtrack_solutions_list p ms :=
      List.mem_of_mem_filter (List.mem_of_mem_take hmem)
    exact backtrack_solutions_list_ok p hp ms positions h1

theorem backtrack_solve_ok (p : PackingProblem) (hp : ProblemValid p) :
    placements_ok p.container_w p.container_h (backtrack_solve p).tile_positions := by
  unfold backtrack_solve
  cases hall : backtrack_solve_all p 1 with
  | nil =>
    exact ⟨fun t ht => absurd ht (List.not_mem_nil t), List.Pairwise.nil⟩
  | cons s rest =>
    have : s ∈ backtrack_solve_all p 1 := by
      rw [hall]
      exact List.mem_cons_self _ _
    exact backtrack_solve_all_ok p hp 1 s this

/-! ### Claim C1 assembled -/

/-- Claim C1: for every field assignment `PackingProblem.__post_init__`
accepts, every solution produced by the Mathematical solver (`solve` and
`solve_all_optimal`), the Greedy solver (both the `bottom_left` and the
`center_out` strategies), and the Backtracking solver (`solve` and
`solve_all_optimal`, for any solution cap) has pairwise non-overlapping
placements (open-interval overlap on both axes, the `rectangles_overlap`
test of validation.py) with every placement inside
`[0, container_w] × [0, container_h]`. -/
theorem claim_C1_solver_soundness (p : PackingProblem) (hp : ProblemValid p) :
    placements_ok p.container_w p.container_h (mathematical_solve p).tile_positions ∧
      (∀ ms : Int, ∀ s ∈ mathematical_solve_all p ms,
        placements_ok p.container_w p.container_h s.tile_positions) ∧
      placements_ok p.container_w p.container_h
        (greedy_bottom_left_solution p).tile_positions ∧
      placements_ok p.container_w p.container_h
        (greedy_center_out_solution p).tile_positions ∧
      (∀ ms : Int, ∀ s ∈ backtrack_solve_all p ms,
        placements_ok p.container_w p.container_h s.tile_positions) ∧
      placements_ok p.container_w p.container_h (backtrack_solve p).tile_positions :=
  ⟨mathematical_solve_ok p hp,
   fun ms => mathematical_solve_all_ok p hp ms,
   greedy_solve_bottom_left_ok p hp,
   greedy_solve_center_out_ok p hp,
   fun ms => backtrack_solve_all_ok p hp ms,
   backtrack_solve_ok p hp⟩

/-- Witness for claim C1 at the concrete valid problem
container 2×2, tile 1×1. -/
theorem claim_C1_witness :
    ProblemValid ⟨2, 2, 1, 1, none, true, true⟩ ∧
      (placements_ok 2 2
          (mathematical_solve ⟨2, 2, 1, 1, none, true, true⟩).tile_positions ∧
        (∀ ms : Int, ∀ s ∈ mathematical_solve_all ⟨2, 2, 1, 1, none, true, true⟩ ms,
          placements_ok 2 2 s.tile_positions) ∧
        placements_ok 2 2
          (greedy_bottom_left_solution ⟨2, 2, 1, 1, none, true, true⟩).tile_positions ∧
        placements_ok 2 2
          (greedy_center_out_solution ⟨2, 2, 1, 1, none, true, true⟩).tile_positions ∧
        (∀ ms : Int, ∀ s ∈ backtrack_solve_all ⟨2, 2, 1, 1, none, true, true⟩ ms,
          placements_ok 2 2 s.tile_positions) ∧
        placements_ok 2 2
          (backtrack_solve ⟨2, 2, 1, 1, none, true, true⟩).tile_positions) :=
  ⟨by decide, claim_C1_solver_soundness ⟨2, 2, 1, 1, none, true, true⟩ (by decide)⟩

/-! ## Claim C6 — hybrid provenance wrapping -/

/-- Claim C6, counterexample: container 3×3, tile 2×2, time limit 60s, with
50s elapsed at the first checkpoint. The mathematical tier places 1 tile
(below the theoretical maximum 2, efficiency 400/9 % < 95%), greedy does not
improve, and the 70%-of-budget early return then fires — returning the tier-1
solution with `solver_name = "Mathematical"`, NOT wrapped as
`"Hybrid(Mathematical)"`: the timed early-return paths skip the wrapping. -/
theorem claim_C6_counterexample :
    (hybrid_solve ⟨3, 3, 2, 2, none, true, true⟩ 60 50 0 none).solver_name =
        "Mathematical" ∧
      "Hybrid(".data.isPrefixOf "Mathematical".data = false := by
  constructor
  · have hnum : (mathematical_solve ⟨3, 3, 2, 2, none, true, true⟩).num_tiles = 1 := by
      decide
    have htheo : (⟨3, 3, 2, 2, none, true, true⟩ : PackingProblem).theoretical_max_tiles
        = 2 := by decide
    have htta : (mathematical_solve ⟨3, 3, 2, 2, none, true, true⟩).total_tile_area
        = 4 := by decide
    have hcw : (mathematical_solve ⟨3, 3, 2, 2, none, true, true⟩).container_w = 3 := by
      decide
    have hch : (mathematical_solve ⟨3, 3, 2, 2, none, true, true⟩).container_h = 3 := by
      decide
    have heff : (mathematical_solve ⟨3, 3, 2, 2, none, true, true⟩).efficiency
        = 400 / 9 := by
      unfold PackingSolution.efficiency
      rw [hnum, htta, hcw, hch]
      norm_num
    have h1 : ¬ hybrid_tier1_early ⟨3, 3, 2, 2, none, true, true⟩ := by
      unfold hybrid_tier1_early
      rw [hnum, htheo, heff]
      norm_num
    have hb2 : (hybrid_best2 ⟨3, 3, 2, 2, none, true, true⟩).num_tiles = 1 := by decide
    have h2 : ¬ (hybrid_best2 ⟨3, 3, 2, 2, none, true, true⟩).num_tiles ≥
        (⟨3, 3, 2, 2, none, true, true⟩ : PackingProblem).theoretical_max_tiles := by
      rw [hb2, htheo]
      norm_num
    unfold hybrid_solve
    rw [if_neg h1, if_neg h2, if_pos (by norm_num : (50 : Rat) > 60 * 0.7)]
    decide
  · decide

/-- Claim C6 as amended: on every completion path of `HybridSolver.solve`
other than the two time-driven early returns — that is, whenever the elapsed
time at the first checkpoint is within 70% of the budget and at the second
checkpoint is within 80% with the ILP collaborator available — the returned
solver_name has the form `"Hybrid(<tier-solver-name>)"`; the two timed early
returns (and the ILP-unavailable exit) return the tier solution with its
unwrapped name. -/
theorem claim_C6_amended (p : PackingProblem) (time_limit elapsedA elapsedB : Rat)
    (ilpResult : Option PackingSolution) (s : PackingSolution)
    (hA : ¬ elapsedA > time_limit * 0.7) (hB : ¬ elapsedB > time_limit * 0.8)
    (hilp : ilpResult = some s) :
    ∃ t : String,
      (hybrid_solve p time_limit elapsedA elapsedB ilpResult).solver_name =
        "Hybrid(" ++ t ++ ")" := by
  unfold hybrid_solve
  split_ifs with h1 h2 h3 h4
  · exact ⟨(hybrid_best1 p).solver_name, rfl⟩
  · exact ⟨(hybrid_best2 p).solver_name, rfl⟩
  · exact ⟨(hybrid_best3 p).solver_name, rfl⟩
  · rcases h4 with h | h
    · exact absurd h hB
    · rw [hilp] at h
      cases h
  · rw [hilp]
    exact ⟨_, rfl⟩

/-- Witness for the amended claim C6: container 3×3, tile 2×2, zero budget
and zero elapsed readings, ILP collaborator present with an empty result; the
returned provenance is wrapped. -/
theorem claim_C6_witness :
    ¬ (0 : Rat) > 0 * 0.7 ∧ ¬ (0 : Rat) > 0 * 0.8 ∧
      (some (⟨[], 3, 3, 0, "ILP", []⟩ : PackingSolution) =
        some (⟨[], 3, 3, 0, "ILP", []⟩ : PackingSolution)) ∧
      ∃ t : String,
        (hybrid_solve ⟨3, 3, 2, 2, none, true, true⟩ 0 0 0
            (some ⟨[], 3, 3, 0, "ILP", []⟩)).solver_name = "Hybrid(" ++ t ++ ")" :=
  ⟨by simp, by simp, rfl,
    claim_C6_amended ⟨3, 3, 2, 2, none, true, true⟩ 0 0 0
      (some ⟨[], 3, 3, 0, "ILP", []⟩) ⟨[], 3, 3, 0, "ILP", []⟩
      (by simp) (by simp) rfl⟩

end Packing2D
